import Mathlib

/-!
Verification of the dialogflow-cx-automation repository.

The Python sources `csv_to_dialogflow_json.py` (graph compiler) and
`upload_to_dialogflow.py` (synchronization engine) are shallowly embedded:
cells are `Option String` (None/NaN vs a string), Python dicts are
association lists with insertion order, the remote agent is an explicit
`Remote` state, and HTTP traffic is a trace of `ApiCall`/`ApiEvent` values.
-/

namespace DFX

/-! ### Python string primitives, modeled over `List Char` -/

/-- Python `str.strip` whitespace set (space, tab, newline, CR, VT, FF). -/
def isPySpace (c : Char) : Bool :=
  c = ' ' || c = '\t' || c = '\n' || c = '\r' || c = '\x0b' || c = '\x0c'

def pyStripL (l : List Char) : List Char :=
  ((l.dropWhile isPySpace).reverse.dropWhile isPySpace).reverse

/-- Python `s.strip()`. -/
def pyStrip (s : String) : String := ⟨pyStripL s.data⟩

/-- Python `s.lower()` (ASCII case folding; all inputs here are ASCII-cased). -/
def pyLower (s : String) : String := ⟨s.data.map Char.toLower⟩

/-- Python `c in s`. -/
def pyContains (s : String) (c : Char) : Bool := s.data.contains c

def splitOnCharAux (c : Char) : List Char → List Char → List String
  | [], acc => [⟨acc.reverse⟩]
  | x :: xs, acc =>
    if x = c then ⟨acc.reverse⟩ :: splitOnCharAux c xs []
    else splitOnCharAux c xs (x :: acc)

/-- Python `s.split(c)` for a one-character separator: keeps empty segments. -/
def splitOnChar (c : Char) (s : String) : List String := splitOnCharAux c s.data []

def splitFirstAux (c : Char) : List Char → List Char → List Char × List Char
  | [], acc => (acc.reverse, [])
  | x :: xs, acc => if x = c then (acc.reverse, xs) else splitFirstAux c xs (x :: acc)

/-- Python `s.split(c, 1)` when `c` occurs in `s`: text before / after the first `c`. -/
def splitFirst (c : Char) (s : String) : String × String :=
  let p := splitFirstAux c s.data []
  (⟨p.1⟩, ⟨p.2⟩)

/-- Python `s.replace('""', '"')`: collapse doubled quotes left to right. -/
def collapseDQ : List Char → List Char
  | [] => []
  | '"' :: '"' :: rest => '"' :: collapseDQ rest
  | c :: rest => c :: collapseDQ rest

/-- Python truthiness of an optional string: `None` and `""` are falsy. -/
def truthy (o : Option String) : Bool := o.getD "" ≠ ""

/-! ### `sanitize` (csv_to_dialogflow_json.py lines 28-36) -/

/-- The literal sentinel set of `sanitize`. -/
def sanitizeSentinels : List String :=
  ["—", "-", "__", "_", "", "N/A", "n/a", "nan", "None"]

/-- `sanitize`: clean up cell values, handling various empty indicators. -/
def sanitize (value : Option String) : Option String :=
  match value with
  | none => none
  | some v =>
    let s := pyStrip v
    if s ∈ sanitizeSentinels then none else some s

/-! ### Association lists with Python-dict semantics -/

/-- Python `d[k] = v`: overwrite in place, new keys appended at the end. -/
def assocSet {β : Type} : List (String × β) → String → β → List (String × β)
  | [], k, v => [(k, v)]
  | (k', v') :: rest, k, v =>
    if k' = k then (k, v) :: rest else (k', v') :: assocSet rest k v

/-- Python `d.get(k)` for dicts built with `assocSet` (unique keys). -/
def lookupA {β : Type} : List (String × β) → String → Option β
  | [], _ => none
  | (k', v) :: rest, k => if k' = k then some v else lookupA rest k

/-- Python `d.setdefault(k, dflt)` key effect. -/
def setdefaultA {β : Type} (l : List (String × β)) (k : String) (dflt : β) :
    List (String × β) :=
  if (lookupA l k).isSome then l else l ++ [(k, dflt)]

/-- Mutate the entry at key `k` (Python mutates the dict value in place). -/
def updateA {β : Type} : List (String × β) → String → (β → β) → List (String × β)
  | [], _, _ => []
  | (k', v) :: rest, k, f =>
    if k' = k then (k', f v) :: rest else (k', v) :: updateA rest k f

/-- Python set `insert` on a membership-only list. -/
def insertSet (l : List String) (x : String) : List String :=
  if x ∈ l then l else l ++ [x]

/-! ### `parse_params` (lines 38-53) -/

/-- `parse_params`: comma-separated `key=value` pairs into a dict. -/
def parse_params (paramStr : Option String) : List (String × String) :=
  match paramStr with
  | none => []
  | some str =>
    (splitOnChar ',' str).foldl
      (fun result pair =>
        let pair := pyStrip pair
        if pair = "" then result
        else if pyContains pair '=' then
          let kv := splitFirst '=' pair
          assocSet result (pyStrip kv.1) (pyStrip kv.2)
        else assocSet result pair "")
      []

/-! ### `strip_wrapping_quotes` (lines 55-63) and `parse_chips` (lines 65-110) -/

/-- `strip_wrapping_quotes`: trim, collapse doubled quotes, drop one wrapping pair. -/
def strip_wrapping_quotes (s : String) : String :=
  let l := collapseDQ (pyStripL s.data)
  if 2 ≤ l.length ∧ l.head? = some '"' ∧ l.getLast? = some '"' then
    ⟨(l.drop 1).dropLast⟩
  else ⟨l⟩

/-- Sentinels that empty out a whole chips cell (line 75). -/
def chipCellSentinels : List String := ["—", "-", "__", "_", ""]

/-- Sentinels dropped per chip candidate (line 99). -/
def chipSentinels : List String := ["—", "-", "__", "_"]

/-- Split policy of `parse_chips`: newlines, else semicolons, else one chip. -/
def chipParts (raw : String) : List String :=
  if pyContains raw '\n' then splitOnChar '\n' raw
  else if pyContains raw ';' then splitOnChar ';' raw
  else [raw]

/-- Per-candidate pipeline of the `parse_chips` loop (lines 91-100);
`none` means the candidate is dropped. -/
def chipProcess (p : String) : Option String :=
  let p := pyStrip p
  if p = "" then none
  else
    let p : String := ⟨collapseDQ p.data⟩
    let p := strip_wrapping_quotes p
    if p ≠ "" ∧ p ∉ chipSentinels then some p else none

def dedupFirstAux (seen : List String) : List String → List String
  | [] => []
  | c :: rest =>
    if c ∈ seen then dedupFirstAux seen rest
    else c :: dedupFirstAux (c :: seen) rest

/-- Duplicate removal preserving first occurrences (lines 102-108). -/
def dedupFirst (l : List String) : List String := dedupFirstAux [] l

/-- `parse_chips`. -/
def parse_chips (chipsCell : Option String) : List String :=
  match chipsCell with
  | none => []
  | some c =>
    let raw := pyStrip c
    if raw = "" ∨ raw ∈ chipCellSentinels then []
    else dedupFirst ((chipParts raw).filterMap chipProcess)

/-! ### `parse_next_pages` (lines 112-160) -/

/-- Sentinels of the next-page cell and of split segments (lines 125, 142). -/
def npSentinels : List String := ["—", "-", "__", "_", "N/A", "n/a"]

/-- Resolve a nonempty segment to a target or an end-state marker (lines 140-145). -/
def npResolve (t : String) : Option String :=
  if t ≠ "" ∧ t ∉ npSentinels then some t else none

/-- Split policy (lines 129-137): newline split, else slash split unless a URL,
else `none` meaning "single target, no split". -/
def npSegments (s : String) : Option (List String) :=
  if pyContains s '\n' then
    some (((splitOnChar '\n' s).map pyStrip).filter (· ≠ ""))
  else if pyContains s '/' ∧ ¬("http".data.isPrefixOf s.data) then
    some (((splitOnChar '/' s).map pyStrip).filter (· ≠ ""))
  else none

/-- Mismatch policy (lines 156-160): pad with the last element (or `none`),
then cut to the chip count. -/
def npPad (l : List (Option String)) (k : Nat) : List (Option String) :=
  (l ++ List.replicate (k - l.length) ((l.getLast?).getD none)).take k

/-- `parse_next_pages`. -/
def parse_next_pages (cell : Option String) (chipsCount : Nat) : List (Option String) :=
  match cell with
  | none => List.replicate chipsCount none
  | some c =>
    let s := pyStrip c
    if s = "" ∨ s ∈ npSentinels then List.replicate chipsCount none
    else
      match npSegments s with
      | none => List.replicate chipsCount (some s)
      | some targets =>
        let cleaned := targets.map npResolve
        if cleaned.length = 1 then List.replicate chipsCount (cleaned.getD 0 none)
        else if cleaned.length = chipsCount then cleaned
        else npPad cleaned chipsCount

/-! ### `parse_trigger_and_example` (lines 162-187) -/

/-- Remove every occurrence of `pat` from a char list (Python `str.replace(pat, '')`). -/
def removeAll (pat : List Char) : List Char → List Char
  | [] => []
  | c :: rest =>
    if pat.isPrefixOf (c :: rest) ∧ pat ≠ [] then
      removeAll pat (rest.drop (pat.length - 1))
    else c :: removeAll pat rest
termination_by l => l.length
decreasing_by
  · simp only [List.length_drop, List.length_cons]
    omega
  · simp only [List.length_cons]
    omega

def leadInPhrases : List String :=
  ["User says ", "User responds with ", "User denies ", "User accepts "]

/-- `parse_trigger_and_example`: split on the first colon, strip lead-in phrases. -/
def parse_trigger_and_example (triggerRaw : Option String) :
    Option String × Option String :=
  match triggerRaw with
  | none => (none, none)
  | some t =>
    if t = "" then (none, none)
    else if pyContains t ':' then
      let parts := splitFirst ':' t
      let triggerType := pyStrip parts.1
      let ex := pyStrip parts.2
      let ex := leadInPhrases.foldl (fun e ph => ⟨removeAll ph.data e.data⟩) ex
      (some triggerType, some (strip_wrapping_quotes ex))
    else (some "Intent", some (strip_wrapping_quotes t))

/-! ### `slugify` (lines 189-195) and `generate_webhook_tag` (lines 197-221) -/

def isTagChar (c : Char) : Bool :=
  ('a' ≤ c && c ≤ 'z') || ('0' ≤ c && c ≤ '9') || c = '_'

/-- `re.sub(r"\s+", "_", ·)`: each maximal whitespace run becomes one underscore. -/
def wsRunsToU : Bool → List Char → List Char
  | _, [] => []
  | prevWs, c :: rest =>
    if isPySpace c then
      if prevWs then wsRunsToU true rest else '_' :: wsRunsToU true rest
    else c :: wsRunsToU false rest

/-- `re.sub(r"_+", "_", ·)`: collapse underscore runs (flag: last kept char was `_`). -/
def collapseUAux : Bool → List Char → List Char
  | _, [] => []
  | prevU, c :: rest =>
    if c = '_' then
      if prevU then collapseUAux true rest else '_' :: collapseUAux true rest
    else c :: collapseUAux false rest

def collapseU (l : List Char) : List Char := collapseUAux false l

/-- Python `s.strip('_')`. -/
def stripUnderscores (l : List Char) : List Char :=
  ((l.dropWhile (· = '_')).reverse.dropWhile (· = '_')).reverse

/-- `slugify`: convert string to a valid Dialogflow identifier. -/
def slugify (s : String) : String :=
  let l := pyStripL (pyLower s).data
  let l := wsRunsToU false l
  let l := l.filter isTagChar
  ⟨stripUnderscores (collapseU l)⟩

/-- Python `str.split()`: split on whitespace runs, dropping empties. -/
def wsSplitAux : List Char → List Char → List String
  | [], acc => if acc.isEmpty then [] else [⟨acc.reverse⟩]
  | c :: rest, acc =>
    if isPySpace c then
      if acc.isEmpty then wsSplitAux rest []
      else ⟨acc.reverse⟩ :: wsSplitAux rest []
    else wsSplitAux rest (c :: acc)

def pySplitWs (s : String) : List String := wsSplitAux s.data []

def tagStopwords : List String :=
  ["for", "the", "and", "or", "with", "from", "to", "a", "an", "in", "on", "at", "of"]

/-- `generate_webhook_tag`: derive a webhook tag from a plain-English description. -/
def generate_webhook_tag (actionText : String) : Option String :=
  if actionText = "" then none
  else
    let text := pyLower actionText
    let words := (pySplitWs text).filter (· ∉ tagStopwords)
    let tag := String.intercalate "_" (words.take 4)
    some ⟨stripUnderscores (collapseU (tag.data.filter isTagChar))⟩

/-! ### Lemmas about the dedup pass of `parse_chips` -/

lemma dedupFirstAux_sublist (seen : List String) (l : List String) :
    (dedupFirstAux seen l).Sublist l := by
  induction l generalizing seen with
  | nil => simp [dedupFirstAux]
  | cons c rest ih =>
    by_cases h : c ∈ seen
    · simp only [dedupFirstAux, if_pos h]
      exact (ih seen).cons c
    · simp only [dedupFirstAux, if_neg h]
      exact (ih (c :: seen)).cons₂ c

lemma mem_dedupFirstAux (seen : List String) (l : List String) (x : String) :
    x ∈ dedupFirstAux seen l ↔ x ∈ l ∧ x ∉ seen := by
  induction l generalizing seen with
  | nil => simp [dedupFirstAux]
  | cons c rest ih =>
    by_cases h : c ∈ seen
    · simp only [dedupFirstAux, if_pos h, ih, List.mem_cons]
      constructor
      · rintro ⟨hx, hs⟩; exact ⟨Or.inr hx, hs⟩
      · rintro ⟨hx | hx, hs⟩
        · exact absurd (hx ▸ h) hs
        · exact ⟨hx, hs⟩
    · simp only [dedupFirstAux, if_neg h, List.mem_cons, ih]
      by_cases hc : x = c
      · subst hc; simp [h]
      · simp [hc]

lemma dedupFirstAux_nodup (seen : List String) (l : List String) :
    (dedupFirstAux seen l).Nodup := by
  induction l generalizing seen with
  | nil => simp [dedupFirstAux]
  | cons c rest ih =>
    by_cases h : c ∈ seen
    · simp only [dedupFirstAux, if_pos h]; exact ih seen
    · simp only [dedupFirstAux, if_neg h]
      refine List.nodup_cons.mpr ⟨fun hm => ?_, ih (c :: seen)⟩
      exact ((mem_dedupFirstAux _ _ _).mp hm).2 (List.mem_cons_self c seen)

lemma dedupFirst_nodup (l : List String) : (dedupFirst l).Nodup :=
  dedupFirstAux_nodup [] l

lemma dedupFirst_sublist (l : List String) : (dedupFirst l).Sublist l :=
  dedupFirstAux_sublist [] l

lemma mem_dedupFirst (l : List String) (x : String) : x ∈ dedupFirst l ↔ x ∈ l := by
  simp [dedupFirst, mem_dedupFirstAux]

lemma chipProcess_some {p c : String} (h : chipProcess p = some c) :
    c ≠ "" ∧ c ∉ chipSentinels := by
  unfold chipProcess at h
  by_cases h1 : pyStrip p = ""
  · simp [h1] at h
  · simp only [h1, if_false] at h
    by_cases h2 : strip_wrapping_quotes ⟨collapseDQ (pyStrip p).data⟩ ≠ "" ∧
        strip_wrapping_quotes ⟨collapseDQ (pyStrip p).data⟩ ∉ chipSentinels
    · rw [if_pos h2] at h
      cases h
      exact h2
    · rw [if_neg h2] at h
      cases h

lemma chip_sentinel_candidates_empty {raw : String}
    (h : raw = "" ∨ raw ∈ chipCellSentinels) :
    (chipParts raw).filterMap chipProcess = [] := by
  have h' : raw ∈ chipCellSentinels := by
    rcases h with h | h
    · rw [h]; decide
    · exact h
  simp only [chipCellSentinels, List.mem_cons, List.not_mem_nil, or_false,
    List.mem_singleton] at h'
  rcases h' with rfl | rfl | rfl | rfl | rfl <;> decide

/-- C5: `parse_chips` splits one-per-line on newlines, falling back to semicolons,
falling back to the whole cell; each candidate is trimmed, has doubled quote-escapes
collapsed, has one layer of wrapping quotes stripped, and is dropped if it reduces
to a sentinel token or the empty string; the result has no duplicates and keeps
first-occurrence order (it is a sublist of the processed candidate list containing
exactly its members). -/
theorem parse_chips_spec (chipsCell : Option String) :
    (parse_chips chipsCell).Nodup ∧
    (∀ c ∈ parse_chips chipsCell, c ≠ "" ∧ c ∉ chipSentinels) ∧
    (∀ s, chipsCell = some s → ¬(pyStrip s = "" ∨ pyStrip s ∈ chipCellSentinels) →
      parse_chips chipsCell = dedupFirst ((chipParts (pyStrip s)).filterMap chipProcess)) ∧
    (∀ s, chipsCell = some s →
      (parse_chips chipsCell).Sublist ((chipParts (pyStrip s)).filterMap chipProcess)) ∧
    (∀ s, chipsCell = some s → ∀ c,
      c ∈ parse_chips chipsCell ↔ c ∈ (chipParts (pyStrip s)).filterMap chipProcess) := by
  have hbr : ∀ s, chipsCell = some s → ¬(pyStrip s = "" ∨ pyStrip s ∈ chipCellSentinels) →
      parse_chips chipsCell = dedupFirst ((chipParts (pyStrip s)).filterMap chipProcess) := by
    intro s hs hsent
    subst hs
    simp only [parse_chips]
    rw [if_neg hsent]
  have hbr2 : ∀ s, chipsCell = some s → (pyStrip s = "" ∨ pyStrip s ∈ chipCellSentinels) →
      parse_chips chipsCell = [] := by
    intro s hs hsent
    subst hs
    simp only [parse_chips]
    rw [if_pos hsent]
  refine ⟨?_, ?_, hbr, ?_, ?_⟩
  · cases chipsCell with
    | none => simp [parse_chips]
    | some s =>
      by_cases hsent : pyStrip s = "" ∨ pyStrip s ∈ chipCellSentinels
      · rw [hbr2 s rfl hsent]; exact List.nodup_nil
      · rw [hbr s rfl hsent]; exact dedupFirst_nodup _
  · intro c
    cases chipsCell with
    | none => intro hc; simp [parse_chips] at hc
    | some s =>
      intro hc
      by_cases hsent : pyStrip s = "" ∨ pyStrip s ∈ chipCellSentinels
      · rw [hbr2 s rfl hsent] at hc; cases hc
      · rw [hbr s rfl hsent] at hc
        have := (mem_dedupFirst _ _).mp hc
        obtain ⟨p, _, hp⟩ := List.mem_filterMap.mp this
        exact chipProcess_some hp
  · intro s hs
    by_cases hsent : pyStrip s = "" ∨ pyStrip s ∈ chipCellSentinels
    · rw [hbr2 s hs hsent, chip_sentinel_candidates_empty hsent]
    · rw [hbr s hs hsent]; exact dedupFirst_sublist _
  · intro s hs c
    by_cases hsent : pyStrip s = "" ∨ pyStrip s ∈ chipCellSentinels
    · rw [hbr2 s hs hsent, chip_sentinel_candidates_empty hsent]
    · rw [hbr s hs hsent]; exact mem_dedupFirst _ _

theorem parse_chips_spec_witness :
    ¬(pyStrip "Yes\nNo\nMaybe" = "" ∨ pyStrip "Yes\nNo\nMaybe" ∈ chipCellSentinels) ∧
    parse_chips (some "Yes\nNo\nMaybe") =
      dedupFirst ((chipParts (pyStrip "Yes\nNo\nMaybe")).filterMap chipProcess) ∧
    parse_chips (some "Yes\nNo\nMaybe") = ["Yes", "No", "Maybe"] :=
  ⟨by decide,
   (parse_chips_spec (some "Yes\nNo\nMaybe")).2.2.1 "Yes\nNo\nMaybe" rfl (by decide),
   by decide⟩

/-! ### C6: the `sanitize` sentinel set -/

/-- C6 counterexample: the claim says `sanitize` treats "none" case-insensitively,
but `"NONE"` is not in the literal sentinel set and survives unchanged. -/
theorem sanitize_claim_counterexample :
    sanitize (some "NONE") = some "NONE" ∧ sanitize (some "NONE") ≠ none := by
  constructor <;> decide

/-- C6 (amended): `sanitize` maps `none` to `none` (absent-in implies absent-out),
maps any value whose trimmed form lies in the literal sentinel set
`{"—","-","__","_","","N/A","n/a","nan","None"}` (matched case-sensitively,
not case-insensitively) to absent, and otherwise returns the trimmed string. -/
theorem sanitize_amended :
    sanitize none = none ∧
    (∀ v ∈ sanitizeSentinels, sanitize (some v) = none) ∧
    (∀ s : String, pyStrip s ∈ sanitizeSentinels → sanitize (some s) = none) ∧
    (∀ s : String, pyStrip s ∉ sanitizeSentinels → sanitize (some s) = some (pyStrip s)) := by
  refine ⟨rfl, by decide, ?_, ?_⟩
  · intro s h
    simp only [sanitize]
    rw [if_pos h]
  · intro s h
    simp only [sanitize]
    rw [if_neg h]

theorem sanitize_amended_witness :
    pyStrip " draft " ∉ sanitizeSentinels ∧
    sanitize (some " draft ") = some (pyStrip " draft ") :=
  ⟨by decide, sanitize_amended.2.2.2 " draft " (by decide)⟩

/-! ### C4: `parse_next_pages` cardinality reconciliation -/

lemma npPad_length (l : List (Option String)) (k : Nat) : (npPad l k).length = k := by
  simp only [npPad, List.length_take, List.length_append, List.length_replicate]
  omega

/-- C4: for every cell and every chip count `k ≥ 1`, `parse_next_pages` returns
exactly `k` targets: an absent or sentinel cell yields `k` `none` entries, a single
resolved target is broadcast to all `k` chips, a target list of length `k` pairs
positionally, and any other mismatch is reconciled by padding with the last element
(or `none` if empty) and cutting to exactly `k` — always a total result, never a
failure. -/
theorem parse_next_pages_spec (cell : Option String) (k : Nat) (hk : 1 ≤ k) :
    (parse_next_pages cell k).length = k ∧
    (cell = none → parse_next_pages cell k = List.replicate k none) ∧
    (∀ s, cell = some s → (pyStrip s = "" ∨ pyStrip s ∈ npSentinels) →
      parse_next_pages cell k = List.replicate k none) ∧
    (∀ s, cell = some s → ¬(pyStrip s = "" ∨ pyStrip s ∈ npSentinels) →
      npSegments (pyStrip s) = none →
      parse_next_pages cell k = List.replicate k (some (pyStrip s))) ∧
    (∀ s targets, cell = some s → ¬(pyStrip s = "" ∨ pyStrip s ∈ npSentinels) →
      npSegments (pyStrip s) = some targets → (targets.map npResolve).length = 1 →
      parse_next_pages cell k = List.replicate k ((targets.map npResolve).getD 0 none)) ∧
    (∀ s targets, cell = some s → ¬(pyStrip s = "" ∨ pyStrip s ∈ npSentinels) →
      npSegments (pyStrip s) = some targets → (targets.map npResolve).length = k →
      parse_next_pages cell k = targets.map npResolve) ∧
    (∀ s targets, cell = some s → ¬(pyStrip s = "" ∨ pyStrip s ∈ npSentinels) →
      npSegments (pyStrip s) = some targets → (targets.map npResolve).length ≠ 1 →
      (targets.map npResolve).length ≠ k →
      parse_next_pages cell k = npPad (targets.map npResolve) k) := by
  have habs : ∀ s, cell = some s → (pyStrip s = "" ∨ pyStrip s ∈ npSentinels) →
      parse_next_pages cell k = List.replicate k none := by
    intro s hs hsent
    subst hs
    simp only [parse_next_pages]
    rw [if_pos hsent]
  have hsingle : ∀ s, cell = some s → ¬(pyStrip s = "" ∨ pyStrip s ∈ npSentinels) →
      npSegments (pyStrip s) = none →
      parse_next_pages cell k = List.replicate k (some (pyStrip s)) := by
    intro s hs hsent hseg
    subst hs
    simp only [parse_next_pages]
    rw [if_neg hsent, hseg]
  have hsplit : ∀ s targets, cell = some s → ¬(pyStrip s = "" ∨ pyStrip s ∈ npSentinels) →
      npSegments (pyStrip s) = some targets →
      parse_next_pages cell k =
        (if (targets.map npResolve).length = 1 then
          List.replicate k ((targets.map npResolve).getD 0 none)
        else if (targets.map npResolve).length = k then targets.map npResolve
        else npPad (targets.map npResolve) k) := by
    intro s targets hs hsent hseg
    subst hs
    simp only [parse_next_pages]
    rw [if_neg hsent, hseg]
  refine ⟨?_, ?_, habs, hsingle, ?_, ?_, ?_⟩
  · cases cell with
    | none => simp [parse_next_pages]
    | some s =>
      by_cases hsent : pyStrip s = "" ∨ pyStrip s ∈ npSentinels
      · rw [habs s rfl hsent, List.length_replicate]
      · cases hseg : npSegments (pyStrip s) with
        | none => rw [hsingle s rfl hsent hseg, List.length_replicate]
        | some targets =>
          rw [hsplit s targets rfl hsent hseg]
          by_cases h1 : (targets.map npResolve).length = 1
          · rw [if_pos h1, List.length_replicate]
          · rw [if_neg h1]
            by_cases h2 : (targets.map npResolve).length = k
            · rw [if_pos h2, h2]
            · rw [if_neg h2, npPad_length]
  · intro hc; subst hc; simp [parse_next_pages]
  · intro s targets hs hsent hseg h1
    rw [hsplit s targets hs hsent hseg, if_pos h1]
  · intro s targets hs hsent hseg hkk
    rw [hsplit s targets hs hsent hseg]
    by_cases h1 : (targets.map npResolve).length = 1
    · rw [if_pos h1]
      have hk1 : k = 1 := by omega
      subst hk1
      match targets, h1 with
      | [t], _ => simp
    · rw [if_neg h1, if_pos hkk]
  · intro s targets hs hsent hseg h1 h2
    rw [hsplit s targets hs hsent hseg, if_neg h1, if_neg h2]

/-! ### C9: the webhook tag generator -/

lemma collapseUAux_cons_us_true (rest : List Char) :
    collapseUAux true ('_' :: rest) = collapseUAux true rest := by
  simp [collapseUAux]

lemma collapseUAux_cons_us_false (rest : List Char) :
    collapseUAux false ('_' :: rest) = '_' :: collapseUAux true rest := by
  simp [collapseUAux]

lemma collapseUAux_cons_other (b : Bool) {x : Char} (hx : x ≠ '_') (rest : List Char) :
    collapseUAux b (x :: rest) = x :: collapseUAux false rest := by
  simp [collapseUAux, hx]

lemma collapseUAux_mem (l : List Char) :
    ∀ (b : Bool), ∀ c ∈ collapseUAux b l, c ∈ l := by
  induction l with
  | nil => simp [collapseUAux]
  | cons x rest ih =>
    intro b c hc
    by_cases hx : x = '_'
    · subst hx
      cases b with
      | true =>
        rw [collapseUAux_cons_us_true] at hc
        exact List.mem_cons_of_mem _ (ih true c hc)
      | false =>
        rw [collapseUAux_cons_us_false] at hc
        rcases List.mem_cons.mp hc with rfl | hc
        · exact List.mem_cons_self _ _
        · exact List.mem_cons_of_mem _ (ih true c hc)
    · rw [collapseUAux_cons_other b hx] at hc
      rcases List.mem_cons.mp hc with rfl | hc
      · exact List.mem_cons_self _ _
      · exact List.mem_cons_of_mem _ (ih false c hc)

lemma collapseUAux_true_head (l : List Char) :
    (collapseUAux true l).head? ≠ some '_' := by
  induction l with
  | nil => simp [collapseUAux]
  | cons x rest ih =>
    by_cases hx : x = '_'
    · subst hx; rw [collapseUAux_cons_us_true]; exact ih
    · rw [collapseUAux_cons_other true hx]; simp [hx]

lemma collapseUAux_no_dd (l : List Char) :
    ∀ b, ¬ List.IsInfix ['_', '_'] (collapseUAux b l) := by
  induction l with
  | nil => intro b h; simp [collapseUAux] at h
  | cons x rest ih =>
    intro b h
    by_cases hx : x = '_'
    · subst hx
      cases b with
      | true => rw [collapseUAux_cons_us_true] at h; exact ih true h
      | false =>
        rw [collapseUAux_cons_us_false] at h
        rcases List.infix_cons_iff.mp h with hp | hi
        · obtain ⟨t, ht⟩ := hp
          rw [List.cons_append, List.cons_append, List.nil_append] at ht
          injection ht with _ h2
          exact collapseUAux_true_head rest (by rw [← h2]; rfl)
        · exact ih true hi
    · rw [collapseUAux_cons_other b hx] at h
      rcases List.infix_cons_iff.mp h with hp | hi
      · obtain ⟨t, ht⟩ := hp
        rw [List.cons_append, List.cons_append, List.nil_append] at ht
        injection ht with h1 _
        exact hx h1.symm
      · exact ih false hi

lemma dropWhile_head_not {p : Char → Bool} (l : List Char) :
    ∀ c, (l.dropWhile p).head? = some c → ¬ p c := by
  induction l with
  | nil => simp
  | cons x rest ih =>
    intro c hc
    rw [List.dropWhile_cons] at hc
    by_cases hx : p x
    · rw [if_pos hx] at hc; exact ih c hc
    · rw [if_neg hx] at hc
      simp only [List.head?_cons, Option.some.injEq] at hc
      subst hc; exact hx

lemma prefix_head {X Z : List Char} (h : X <+: Z) {c : Char}
    (hc : X.head? = some c) : Z.head? = some c := by
  obtain ⟨t, rfl⟩ := h
  cases X with
  | nil => simp at hc
  | cons a xs => simpa using hc

lemma stripUnderscores_reverse_core (l : List Char) :
    (((l.dropWhile (· = '_')).reverse.dropWhile (· = '_')).reverse) <+:
      l.dropWhile (· = '_') := by
  have h2 : ((l.dropWhile (· = '_')).reverse.dropWhile (· = '_')) <:+
      (l.dropWhile (· = '_')).reverse := List.dropWhile_suffix _
  rw [show ((l.dropWhile (· = '_')).reverse.dropWhile (· = '_')) =
      (((l.dropWhile (· = '_')).reverse.dropWhile (· = '_')).reverse).reverse by
    rw [List.reverse_reverse]] at h2
  exact List.reverse_suffix.mp h2

lemma stripUnderscores_within (l : List Char) : stripUnderscores l <:+: l := by
  unfold stripUnderscores
  exact (stripUnderscores_reverse_core l).isInfix.trans (List.dropWhile_suffix _).isInfix

lemma stripUnderscores_head (l : List Char) :
    ∀ c, (stripUnderscores l).head? = some c → c ≠ '_' := by
  intro c hc
  have hd : (l.dropWhile (· = '_')).head? = some c :=
    prefix_head (stripUnderscores_reverse_core l) hc
  have := dropWhile_head_not (p := (· = '_')) l c hd
  simpa using this

lemma stripUnderscores_getLast (l : List Char) :
    ∀ c, (stripUnderscores l).getLast? = some c → c ≠ '_' := by
  intro c hc
  unfold stripUnderscores at hc
  rw [List.getLast?_reverse] at hc
  have := dropWhile_head_not (p := (· = '_')) (l.dropWhile (· = '_')).reverse c hc
  simpa using this

/-- C9: `generate_webhook_tag` is a pure deterministic function of its input text,
computed by lower-casing, removing a fixed stop-word set, keeping the first four
remaining words, joining with underscores, stripping characters outside
`[a-z0-9_]`, collapsing repeated underscore runs, and trimming edge underscores;
absent (empty) input yields no tag, and every produced tag contains only tag
characters, no doubled underscore, and no leading or trailing underscore. -/
theorem generate_webhook_tag_spec :
    generate_webhook_tag "" = none ∧
    (∀ s t : String, s = t → generate_webhook_tag s = generate_webhook_tag t) ∧
    (∀ s : String, s ≠ "" → generate_webhook_tag s =
      some ⟨stripUnderscores (collapseU
        ((String.intercalate "_"
          (((pySplitWs (pyLower s)).filter (· ∉ tagStopwords)).take 4)).data.filter
          isTagChar))⟩) ∧
    (∀ s r, generate_webhook_tag s = some r →
      (∀ c ∈ r.data, isTagChar c) ∧
      ¬ List.IsInfix ['_', '_'] r.data ∧
      (∀ c, r.data.head? = some c → c ≠ '_') ∧
      (∀ c, r.data.getLast? = some c → c ≠ '_')) := by
  refine ⟨rfl, fun s t h => h ▸ rfl, ?_, ?_⟩
  · intro s hs
    simp only [generate_webhook_tag, if_neg hs]
  · intro s r h
    by_cases hs : s = ""
    · rw [hs] at h; cases h
    · simp only [generate_webhook_tag, if_neg hs, Option.some.injEq] at h
      subst h
      refine ⟨?_, ?_, stripUnderscores_head _, stripUnderscores_getLast _⟩
      · intro c hc
        have h1 : c ∈ collapseU ((String.intercalate "_"
            (((pySplitWs (pyLower s)).filter (· ∉ tagStopwords)).take 4)).data.filter
            isTagChar) :=
          (stripUnderscores_within _).sublist.subset hc
        have h2 := collapseUAux_mem _ false c h1
        exact List.of_mem_filter h2
      · intro hdd
        exact collapseUAux_no_dd _ false (hdd.trans (stripUnderscores_within _))

theorem generate_webhook_tag_spec_witness :
    generate_webhook_tag "Check the account balance for user" =
      some "check_account_balance_user" ∧
    (∀ c, ("check_account_balance_user" : String).data.head? = some c → c ≠ '_') :=
  ⟨by decide,
   (generate_webhook_tag_spec.2.2.2 "Check the account balance for user"
     "check_account_balance_user" (by decide)).2.2.1⟩

theorem parse_next_pages_spec_witness :
    (1 : Nat) ≤ 3 ∧
    ¬(pyStrip "PageA/PageB" = "" ∨ pyStrip "PageA/PageB" ∈ npSentinels) ∧
    npSegments (pyStrip "PageA/PageB") = some ["PageA", "PageB"] ∧
    parse_next_pages (some "PageA/PageB") 3 = npPad (["PageA", "PageB"].map npResolve) 3 ∧
    parse_next_pages (some "PageA/PageB") 3 = [some "PageA", some "PageB", some "PageB"] :=
  ⟨by decide, by decide, by decide,
   (parse_next_pages_spec (some "PageA/PageB") 3 (by decide)).2.2.2.2.2.2
     "PageA/PageB" ["PageA", "PageB"] rfl (by decide) (by decide) (by decide) (by decide),
   by decide⟩

/-! ### The graph compiler: `convert_single_csv` (lines 223-427)

`convert_rows` embeds the row loop and the end-state inference pass; reading the
CSV from disk and writing the JSON file are out of scope.  A `Row` is one input
record, every cell an `Option String` (`none` is a missing/NaN cell). -/

structure Row where
  page_name : Option String
  intent_name : Option String
  trigger : Option String
  bot_prompt : Option String
  next_page : Option String
  parameter_set : Option String
  webhook_action : Option String
  suggested_chips : Option String
deriving DecidableEq

structure PageInfo where
  prompts : List String
  chips : List String
deriving DecidableEq

structure RouteE where
  page : String
  intent : String
  next_page : Option String
  webhook_action : Option String
  parameters : Option (List (String × String))
deriving DecidableEq

structure Graph where
  pages : List (String × PageInfo)
  intents : List (String × List String)
  routes : List RouteE
  end_pages : List String
  first_page : Option String
  webhooks : List (String × String)
deriving DecidableEq

structure ConvState where
  data : Graph
  pages_with_routes : List String
  all_pages : List String
deriving DecidableEq

/-- Accumulator for a row's route-creation branch (lines 327-384). -/
structure RowAcc where
  intents : List (String × List String)
  routes : List RouteE
  pwr : List String
  hvr : Bool
deriving DecidableEq

/-- Training-phrase update of the no-chips branch (lines 332-334). -/
def noChipIntentsStep (intentName : String) (userExample : Option String)
    (intents : List (String × List String)) : List (String × List String) :=
  updateA (setdefaultA intents intentName []) intentName (fun ph =>
    if truthy userExample ∧ userExample.getD "" ∉ ph then ph ++ [userExample.getD ""]
    else ph)

/-- The no-chips branch (lines 328-349). -/
def noChipsStep (page intentName : String) (userExample : Option String)
    (webhookTag : Option String) (params : Option (List (String × String)))
    (nextPages : List (Option String)) (acc : RowAcc) : RowAcc :=
  match nextPages.getD 0 none with
  | some np =>
    { intents := noChipIntentsStep intentName userExample acc.intents,
      routes := acc.routes ++ [⟨page, intentName, some np, webhookTag, params⟩],
      pwr := insertSet acc.pwr page, hvr := true }
  | none =>
    { intents := noChipIntentsStep intentName userExample acc.intents,
      routes := acc.routes, pwr := acc.pwr, hvr := acc.hvr }

/-- Training-phrase update of a chip iteration (lines 353-366). -/
def chipIntentsStep (baseIntent chip : String) (userExample : Option String)
    (intents : List (String × List String)) : List (String × List String) :=
  updateA (setdefaultA intents (baseIntent ++ " :: " ++ chip) [])
    (baseIntent ++ " :: " ++ chip) (fun ph =>
      let ph := if chip ∈ ph then ph else ph ++ [chip]
      if truthy userExample ∧ userExample.getD "" ∉ ph then ph ++ [userExample.getD ""]
      else ph)

/-- `next_pages[i] if i < len(next_pages) else next_pages[0]` (line 369). -/
def chipNextPage (nextPages : List (Option String)) (i : Nat) : Option String :=
  if i < nextPages.length then nextPages.getD i none else nextPages.getD 0 none

/-- The with-chips branch, one iteration per `enumerate(chips)` entry
(lines 350-384). -/
def chipLoop (page baseIntent : String) (userExample : Option String)
    (webhookTag : Option String) (params : Option (List (String × String)))
    (nextPages : List (Option String)) :
    List (Nat × String) → RowAcc → RowAcc
  | [], acc => acc
  | (i, chip) :: rest, acc =>
    match chipNextPage nextPages i with
    | some np =>
      chipLoop page baseIntent userExample webhookTag params nextPages rest
        { intents := chipIntentsStep baseIntent chip userExample acc.intents,
          routes := acc.routes ++
            [⟨page, baseIntent ++ " :: " ++ chip, some np, webhookTag, params⟩],
          pwr := insertSet acc.pwr page, hvr := true }
    | none =>
      chipLoop page baseIntent userExample webhookTag params nextPages rest
        { intents := chipIntentsStep baseIntent chip userExample acc.intents,
          routes := acc.routes, pwr := acc.pwr, hvr := acc.hvr }

/-- The route-creation branch of one row (lines 321-384), producing the new
intents table, route list, `pages_with_routes` set and `has_valid_route` flag. -/
def rowAccOf (st : ConvState) (rowIdx : Nat) (row : Row) (page : String) : RowAcc :=
  let chips := parse_chips row.suggested_chips
  let intent_name_raw := sanitize row.intent_name
  let user_example := (parse_trigger_and_example (sanitize row.trigger)).2
  let webhook_action_raw := sanitize row.webhook_action
  let webhook_tag :=
    if truthy webhook_action_raw then generate_webhook_tag (webhook_action_raw.getD "")
    else none
  let param_set := parse_params (sanitize row.parameter_set)
  let params := if param_set.isEmpty then none else some param_set
  let next_pages :=
    parse_next_pages (sanitize row.next_page) (if chips.isEmpty then 1 else chips.length)
  let acc0 : RowAcc := ⟨st.data.intents, st.data.routes, st.pages_with_routes, false⟩
  if chips.isEmpty then
    let intent_name :=
      if truthy intent_name_raw then intent_name_raw.getD ""
      else "Intent_" ++ slugify page ++ "_" ++ Nat.repr rowIdx
    noChipsStep page intent_name user_example webhook_tag params next_pages acc0
  else
    let base_intent :=
      if truthy intent_name_raw then intent_name_raw.getD ""
      else "Intent_" ++ slugify page
    chipLoop page base_intent user_example webhook_tag params next_pages chips.enum acc0

/-- Page registration and prompt/chip merge of one row (lines 299-315). -/
def rowPages (st : ConvState) (row : Row) (page : String) : List (String × PageInfo) :=
  updateA (setdefaultA st.data.pages page ⟨[], []⟩) page (fun pi =>
    { prompts :=
        if truthy (sanitize row.bot_prompt) ∧
            (sanitize row.bot_prompt).getD "" ∉ pi.prompts then
          pi.prompts ++ [(sanitize row.bot_prompt).getD ""]
        else pi.prompts,
      chips := (parse_chips row.suggested_chips).foldl
        (fun acc c => if c ∈ acc then acc else acc ++ [c]) pi.chips })

/-- First-page selection of one row (lines 317-319). -/
def rowFirstPage (st : ConvState) (page : String) : Option String :=
  match st.data.first_page with
  | some fp => some fp
  | none =>
    if pyLower page ∈ (["startpage", "start_page", "start"] : List String) then none
    else some page

/-- Webhook-table update of one row (lines 292-297). -/
def rowWebhooks (st : ConvState) (row : Row) : List (String × String) :=
  let webhook_action_raw := sanitize row.webhook_action
  let webhook_tag :=
    if truthy webhook_action_raw then generate_webhook_tag (webhook_action_raw.getD "")
    else none
  if truthy webhook_tag then
    assocSet st.data.webhooks (webhook_tag.getD "") (webhook_action_raw.getD "")
  else st.data.webhooks

/-- End-state marking of one row (lines 386-389). -/
def rowEndPages (st : ConvState) (row : Row) (page : String) (acc : RowAcc) :
    List String :=
  if ¬acc.hvr ∧ truthy (sanitize row.bot_prompt) ∧ page ∉ st.data.end_pages then
    st.data.end_pages ++ [page]
  else st.data.end_pages

/-- One row of the compiler loop (lines 262-389). -/
def processRow (st : ConvState) (rowIdx : Nat) (row : Row) : ConvState :=
  match sanitize row.page_name with
  | none => st
  | some page =>
    ⟨⟨rowPages st row page, (rowAccOf st rowIdx row page).intents,
      (rowAccOf st rowIdx row page).routes,
      rowEndPages st row page (rowAccOf st rowIdx row page),
      rowFirstPage st page, rowWebhooks st row⟩,
     (rowAccOf st rowIdx row page).pwr, insertSet st.all_pages page⟩

/-- `df.iterrows()` with the running row index. -/
def processRows : ConvState → Nat → List Row → ConvState
  | st, _, [] => st
  | st, i, row :: rest => processRows (processRow st i row) (i + 1) rest

/-- Second pass, step 1 (lines 396-399): set of referenced target pages. -/
def referencedPages : List RouteE → List String → List String
  | [], acc => acc
  | r :: rest, acc =>
    if truthy r.next_page then referencedPages rest (insertSet acc (r.next_page.getD ""))
    else referencedPages rest acc

/-- Second pass, step 2 (lines 401-406): unreferenced non-first pages without
outgoing routes become end states. -/
def inferEndPages (referenced pwr : List String) (firstPage : Option String) :
    List String → List String → List String
  | [], ep => ep
  | p :: rest, ep =>
    if p ∉ referenced ∧ firstPage ≠ some p ∧ p ∉ pwr ∧ p ∉ ep then
      inferEndPages referenced pwr firstPage rest (ep ++ [p])
    else inferEndPages referenced pwr firstPage rest ep

/-- `convert_single_csv`, restricted to its pure row-to-graph core. -/
def convert_rows (rows : List Row) : Graph :=
  let st0 : ConvState := ⟨⟨[], [], [], [], none, []⟩, [], []⟩
  let st := processRows st0 0 rows
  let referenced := referencedPages st.data.routes []
  { st.data with
    end_pages := inferEndPages referenced st.pages_with_routes st.data.first_page
      st.all_pages st.data.end_pages }

/-- Accumulated prompts of a page in a pages table. -/
def pagePrompts (pages : List (String × PageInfo)) (p : String) : List String :=
  match lookupA pages p with
  | some pi => pi.prompts
  | none => []

/-! ### Lemmas on the dict and set helpers -/

lemma mem_insertSet {l : List String} {x p : String} :
    p ∈ insertSet l x ↔ p ∈ l ∨ p = x := by
  unfold insertSet
  by_cases h : x ∈ l
  · rw [if_pos h]
    constructor
    · exact Or.inl
    · rintro (hp | rfl)
      · exact hp
      · exact h
  · rw [if_neg h]
    simp [List.mem_append]

lemma mem_insertSet_of_mem {l : List String} {x p : String} (h : p ∈ l) :
    p ∈ insertSet l x := mem_insertSet.mpr (Or.inl h)

lemma self_mem_insertSet (l : List String) (x : String) : x ∈ insertSet l x :=
  mem_insertSet.mpr (Or.inr rfl)

lemma lookupA_isSome_iff_mem {β : Type} (l : List (String × β)) (p : String) :
    (lookupA l p).isSome ↔ p ∈ l.map Prod.fst := by
  induction l with
  | nil => simp [lookupA]
  | cons kv rest ih =>
    obtain ⟨k, v⟩ := kv
    by_cases h : k = p
    · subst h; simp [lookupA]
    · simp [lookupA, h, ih, Ne.symm h]

lemma keys_updateA {β : Type} (l : List (String × β)) (k : String) (f : β → β) :
    (updateA l k f).map Prod.fst = l.map Prod.fst := by
  induction l with
  | nil => simp [updateA]
  | cons kv rest ih =>
    obtain ⟨k', v⟩ := kv
    by_cases h : k' = k
    · subst h; simp [updateA]
    · simp [updateA, h, ih]

lemma keys_setdefaultA {β : Type} (l : List (String × β)) (k : String) (d : β)
    (p : String) :
    p ∈ (setdefaultA l k d).map Prod.fst ↔ p ∈ l.map Prod.fst ∨ p = k := by
  unfold setdefaultA
  by_cases h : (lookupA l k).isSome
  · rw [if_pos h]
    constructor
    · exact Or.inl
    · rintro (hp | rfl)
      · exact hp
      · exact (lookupA_isSome_iff_mem l p).mp h
  · rw [if_neg h]
    simp [List.mem_append]

lemma lookupA_updateA_self {β : Type} (l : List (String × β)) (k : String) (f : β → β) :
    lookupA (updateA l k f) k = (lookupA l k).map f := by
  induction l with
  | nil => simp [updateA, lookupA]
  | cons kv rest ih =>
    obtain ⟨k', v⟩ := kv
    by_cases h : k' = k
    · subst h; simp [updateA, lookupA]
    · simp [updateA, lookupA, h, ih]

lemma lookupA_updateA_ne {β : Type} (l : List (String × β)) {k p : String}
    (h : p ≠ k) (f : β → β) :
    lookupA (updateA l k f) p = lookupA l p := by
  induction l with
  | nil => simp [updateA, lookupA]
  | cons kv rest ih =>
    obtain ⟨k', v⟩ := kv
    by_cases hk : k' = k
    · subst hk
      simp only [updateA, if_pos rfl]
      simp [lookupA, Ne.symm h]
    · by_cases hp : k' = p
      · subst hp; simp [updateA, lookupA, hk]
      · simp [updateA, lookupA, hk, hp, ih]

lemma lookupA_append {β : Type} (l₁ l₂ : List (String × β)) (p : String) :
    lookupA (l₁ ++ l₂) p =
      match lookupA l₁ p with
      | some v => some v
      | none => lookupA l₂ p := by
  induction l₁ with
  | nil => simp [lookupA]
  | cons kv rest ih =>
    obtain ⟨k, v⟩ := kv
    by_cases h : k = p
    · simp [lookupA, h]
    · simp [lookupA, h, ih]

lemma lookupA_setdefaultA_self {β : Type} (l : List (String × β)) (k : String) (d : β) :
    lookupA (setdefaultA l k d) k = some ((lookupA l k).getD d) := by
  unfold setdefaultA
  cases h : lookupA l k with
  | some v =>
    rw [if_pos (show (some v : Option β).isSome = true from rfl), h]
    rfl
  | none =>
    rw [if_neg (show ¬(none : Option β).isSome = true by simp),
      lookupA_append l [(k, d)] k, h]
    simp [lookupA]

lemma lookupA_setdefaultA_ne {β : Type} (l : List (String × β)) {k p : String}
    (h : p ≠ k) (d : β) :
    lookupA (setdefaultA l k d) p = lookupA l p := by
  unfold setdefaultA
  by_cases hs : (lookupA l k).isSome
  · rw [if_pos hs]
  · rw [if_neg hs, lookupA_append l [(k, d)] p]
    cases hp : lookupA l p with
    | some v => rfl
    | none => simp [lookupA, Ne.symm h]

/-! ### Facts about the route-creation branch of a row -/

lemma chipLoop_cons_some {page baseIntent : String} {ue wt : Option String}
    {ps : Option (List (String × String))} {nps : List (Option String)}
    {i : Nat} {chip np : String} (rest : List (Nat × String)) (acc : RowAcc)
    (h : chipNextPage nps i = some np) :
    chipLoop page baseIntent ue wt ps nps ((i, chip) :: rest) acc =
      chipLoop page baseIntent ue wt ps nps rest
        { intents := chipIntentsStep baseIntent chip ue acc.intents,
          routes := acc.routes ++
            [⟨page, baseIntent ++ " :: " ++ chip, some np, wt, ps⟩],
          pwr := insertSet acc.pwr page, hvr := true } := by
  simp only [chipLoop, h]

lemma chipLoop_cons_none {page baseIntent : String} {ue wt : Option String}
    {ps : Option (List (String × String))} {nps : List (Option String)}
    {i : Nat} {chip : String} (rest : List (Nat × String)) (acc : RowAcc)
    (h : chipNextPage nps i = none) :
    chipLoop page baseIntent ue wt ps nps ((i, chip) :: rest) acc =
      chipLoop page baseIntent ue wt ps nps rest
        { intents := chipIntentsStep baseIntent chip ue acc.intents,
          routes := acc.routes, pwr := acc.pwr, hvr := acc.hvr } := by
  simp only [chipLoop, h]

lemma chipLoop_hvr_mono {page baseIntent : String} {ue wt : Option String}
    {ps : Option (List (String × String))} {nps : List (Option String)} :
    ∀ (l : List (Nat × String)) (acc : RowAcc), acc.hvr = true →
      (chipLoop page baseIntent ue wt ps nps l acc).hvr = true := by
  intro l
  induction l with
  | nil => intro acc h; simpa [chipLoop] using h
  | cons ic rest ih =>
    obtain ⟨i, chip⟩ := ic
    intro acc h
    cases hnp : chipNextPage nps i with
    | some np => rw [chipLoop_cons_some rest acc hnp]; exact ih _ rfl
    | none => rw [chipLoop_cons_none rest acc hnp]; exact ih _ h

lemma chipLoop_routes_mono {page baseIntent : String} {ue wt : Option String}
    {ps : Option (List (String × String))} {nps : List (Option String)} :
    ∀ (l : List (Nat × String)) (acc : RowAcc) (r : RouteE), r ∈ acc.routes →
      r ∈ (chipLoop page baseIntent ue wt ps nps l acc).routes := by
  intro l
  induction l with
  | nil => intro acc r h; simpa [chipLoop] using h
  | cons ic rest ih =>
    obtain ⟨i, chip⟩ := ic
    intro acc r h
    cases hnp : chipNextPage nps i with
    | some np =>
      rw [chipLoop_cons_some rest acc hnp]
      exact ih _ r (List.mem_append_left _ h)
    | none => rw [chipLoop_cons_none rest acc hnp]; exact ih _ r h

lemma chipLoop_routes_shape {page baseIntent : String} {ue wt : Option String}
    {ps : Option (List (String × String))} {nps : List (Option String)} :
    ∀ (l : List (Nat × String)) (acc : RowAcc) (r : RouteE),
      r ∈ (chipLoop page baseIntent ue wt ps nps l acc).routes →
      r ∈ acc.routes ∨
        (r.page = page ∧ (chipLoop page baseIntent ue wt ps nps l acc).hvr = true) := by
  intro l
  induction l with
  | nil => intro acc r h; exact Or.inl (by simpa [chipLoop] using h)
  | cons ic rest ih =>
    obtain ⟨i, chip⟩ := ic
    intro acc r h
    cases hnp : chipNextPage nps i with
    | some np =>
      rw [chipLoop_cons_some rest acc hnp] at h ⊢
      rcases ih _ r h with hin | ⟨hp, hv⟩
      · rcases List.mem_append.mp hin with hold | hnew
        · exact Or.inl hold
        · refine Or.inr ⟨?_, chipLoop_hvr_mono rest _ rfl⟩
          simp only [List.mem_singleton] at hnew
          rw [hnew]
      · exact Or.inr ⟨hp, hv⟩
    | none =>
      rw [chipLoop_cons_none rest acc hnp] at h ⊢
      exact ih _ r h

lemma chipLoop_pwr_mono {page baseIntent : String} {ue wt : Option String}
    {ps : Option (List (String × String))} {nps : List (Option String)} :
    ∀ (l : List (Nat × String)) (acc : RowAcc) (p : String), p ∈ acc.pwr →
      p ∈ (chipLoop page baseIntent ue wt ps nps l acc).pwr := by
  intro l
  induction l with
  | nil => intro acc p h; simpa [chipLoop] using h
  | cons ic rest ih =>
    obtain ⟨i, chip⟩ := ic
    intro acc p h
    cases hnp : chipNextPage nps i with
    | some np =>
      rw [chipLoop_cons_some rest acc hnp]
      exact ih _ p (mem_insertSet_of_mem h)
    | none => rw [chipLoop_cons_none rest acc hnp]; exact ih _ p h

lemma chipLoop_pwr_shape {page baseIntent : String} {ue wt : Option String}
    {ps : Option (List (String × String))} {nps : List (Option String)} :
    ∀ (l : List (Nat × String)) (acc : RowAcc) (p : String),
      p ∈ (chipLoop page baseIntent ue wt ps nps l acc).pwr →
      p ∈ acc.pwr ∨ p = page := by
  intro l
  induction l with
  | nil => intro acc p h; exact Or.inl (by simpa [chipLoop] using h)
  | cons ic rest ih =>
    obtain ⟨i, chip⟩ := ic
    intro acc p h
    cases hnp : chipNextPage nps i with
    | some np =>
      rw [chipLoop_cons_some rest acc hnp] at h
      rcases ih _ p h with hin | rfl
      · rcases mem_insertSet.mp hin with hold | rfl
        · exact Or.inl hold
        · exact Or.inr rfl
      · exact Or.inr rfl
    | none =>
      rw [chipLoop_cons_none rest acc hnp] at h
      have hsh := ih ⟨chipIntentsStep baseIntent chip ue acc.intents,
        acc.routes, acc.pwr, acc.hvr⟩ p h
      rcases hsh with hin | rfl
      · exact Or.inl hin
      · exact Or.inr rfl

lemma chipLoop_page_pwr {page baseIntent : String} {ue wt : Option String}
    {ps : Option (List (String × String))} {nps : List (Option String)} :
    ∀ (l : List (Nat × String)) (acc : RowAcc), (acc.hvr = true → page ∈ acc.pwr) →
      (page ∈ (chipLoop page baseIntent ue wt ps nps l acc).pwr ↔
        page ∈ acc.pwr ∨ (chipLoop page baseIntent ue wt ps nps l acc).hvr = true) := by
  intro l
  induction l with
  | nil =>
    intro acc hacc
    simp only [chipLoop]
    constructor
    · exact Or.inl
    · rintro (h | h)
      · exact h
      · exact hacc h
  | cons ic rest ih =>
    obtain ⟨i, chip⟩ := ic
    intro acc hacc
    cases hnp : chipNextPage nps i with
    | some np =>
      rw [chipLoop_cons_some rest acc hnp]
      have hres : (chipLoop page baseIntent ue wt ps nps rest
          { intents := chipIntentsStep baseIntent chip ue acc.intents,
            routes := acc.routes ++
              [⟨page, baseIntent ++ " :: " ++ chip, some np, wt, ps⟩],
            pwr := insertSet acc.pwr page, hvr := true }).hvr = true :=
        chipLoop_hvr_mono rest _ rfl
      have hmem := (ih _ (fun _ => self_mem_insertSet acc.pwr page)).mpr (Or.inr hres)
      exact iff_of_true hmem (Or.inr hres)
    | none =>
      rw [chipLoop_cons_none rest acc hnp]
      exact ih _ hacc

lemma chipLoop_hvr_false {page baseIntent : String} {ue wt : Option String}
    {ps : Option (List (String × String))} {nps : List (Option String)} :
    ∀ (l : List (Nat × String)) (acc : RowAcc),
      (chipLoop page baseIntent ue wt ps nps l acc).hvr = false →
      (chipLoop page baseIntent ue wt ps nps l acc).routes = acc.routes ∧
      (chipLoop page baseIntent ue wt ps nps l acc).pwr = acc.pwr := by
  intro l
  induction l with
  | nil => intro acc h; simp [chipLoop]
  | cons ic rest ih =>
    obtain ⟨i, chip⟩ := ic
    intro acc h
    cases hnp : chipNextPage nps i with
    | some np =>
      rw [chipLoop_cons_some rest acc hnp] at h
      have := @chipLoop_hvr_mono page baseIntent ue wt ps nps rest
        { intents := chipIntentsStep baseIntent chip ue acc.intents,
          routes := acc.routes ++
            [⟨page, baseIntent ++ " :: " ++ chip, some np, wt, ps⟩],
          pwr := insertSet acc.pwr page, hvr := true } rfl
      rw [this] at h
      cases h
    | none =>
      rw [chipLoop_cons_none rest acc hnp] at h ⊢
      exact ih _ h

lemma chipLoop_hvr_true_route {page baseIntent : String} {ue wt : Option String}
    {ps : Option (List (String × String))} {nps : List (Option String)} :
    ∀ (l : List (Nat × String)) (acc : RowAcc),
      (chipLoop page baseIntent ue wt ps nps l acc).hvr = true →
      acc.hvr = true ∨
        ∃ r ∈ (chipLoop page baseIntent ue wt ps nps l acc).routes, r.page = page := by
  intro l
  induction l with
  | nil => intro acc h; exact Or.inl (by simpa [chipLoop] using h)
  | cons ic rest ih =>
    obtain ⟨i, chip⟩ := ic
    intro acc h
    cases hnp : chipNextPage nps i with
    | some np =>
      rw [chipLoop_cons_some rest acc hnp]
      refine Or.inr ⟨⟨page, baseIntent ++ " :: " ++ chip, some np, wt, ps⟩, ?_, rfl⟩
      exact chipLoop_routes_mono rest _ _
        (List.mem_append_right _ (List.mem_singleton_self _))
    | none =>
      rw [chipLoop_cons_none rest acc hnp] at h ⊢
      exact ih _ h

lemma noChipsStep_facts (page intentName : String) (ue wt : Option String)
    (ps : Option (List (String × String))) (nps : List (Option String)) (acc : RowAcc) :
    (∀ r ∈ acc.routes, r ∈ (noChipsStep page intentName ue wt ps nps acc).routes) ∧
    (∀ r ∈ (noChipsStep page intentName ue wt ps nps acc).routes,
      r ∈ acc.routes ∨
        (r.page = page ∧ (noChipsStep page intentName ue wt ps nps acc).hvr = true)) ∧
    (∀ p ∈ acc.pwr, p ∈ (noChipsStep page intentName ue wt ps nps acc).pwr) ∧
    (∀ p ∈ (noChipsStep page intentName ue wt ps nps acc).pwr,
      p ∈ acc.pwr ∨ p = page) ∧
    ((acc.hvr = true → page ∈ acc.pwr) →
      (page ∈ (noChipsStep page intentName ue wt ps nps acc).pwr ↔
        page ∈ acc.pwr ∨ (noChipsStep page intentName ue wt ps nps acc).hvr = true)) ∧
    ((noChipsStep page intentName ue wt ps nps acc).hvr = false →
      (noChipsStep page intentName ue wt ps nps acc).routes = acc.routes ∧
      (noChipsStep page intentName ue wt ps nps acc).pwr = acc.pwr) ∧
    ((noChipsStep page intentName ue wt ps nps acc).hvr = true →
      acc.hvr = true ∨
        ∃ r ∈ (noChipsStep page intentName ue wt ps nps acc).routes, r.page = page) := by
  unfold noChipsStep
  cases hnp : nps.getD 0 none with
  | some np =>
    refine ⟨fun r h => List.mem_append_left _ h, ?_, fun p h => mem_insertSet_of_mem h,
      ?_, ?_, ?_, ?_⟩
    · intro r h
      rcases List.mem_append.mp h with hold | hnew
      · exact Or.inl hold
      · simp only [List.mem_singleton] at hnew
        exact Or.inr ⟨by rw [hnew], rfl⟩
    · intro p h
      exact mem_insertSet.mp h
    · intro _
      exact iff_of_true (self_mem_insertSet acc.pwr page) (Or.inr rfl)
    · intro h; cases h
    · intro _
      exact Or.inr ⟨⟨page, intentName, some np, wt, ps⟩,
        List.mem_append_right _ (List.mem_singleton_self _), rfl⟩
  | none =>
    refine ⟨fun r h => h, fun r h => Or.inl h, fun p h => h, fun p h => Or.inl h,
      ?_, fun _ => ⟨rfl, rfl⟩, fun h => Or.inl h⟩
    intro hacc
    constructor
    · exact Or.inl
    · rintro (h | h)
      · exact h
      · exact hacc h

lemma rowAccOf_facts (st : ConvState) (i : Nat) (row : Row) (page : String) :
    (∀ r ∈ st.data.routes, r ∈ (rowAccOf st i row page).routes) ∧
    (∀ r ∈ (rowAccOf st i row page).routes,
      r ∈ st.data.routes ∨ (r.page = page ∧ (rowAccOf st i row page).hvr = true)) ∧
    (∀ p ∈ st.pages_with_routes, p ∈ (rowAccOf st i row page).pwr) ∧
    (∀ p ∈ (rowAccOf st i row page).pwr, p ∈ st.pages_with_routes ∨ p = page) ∧
    (page ∈ (rowAccOf st i row page).pwr ↔
      page ∈ st.pages_with_routes ∨ (rowAccOf st i row page).hvr = true) ∧
    ((rowAccOf st i row page).hvr = false →
      (rowAccOf st i row page).routes = st.data.routes ∧
      (rowAccOf st i row page).pwr = st.pages_with_routes) ∧
    ((rowAccOf st i row page).hvr = true →
      ∃ r ∈ (rowAccOf st i row page).routes, r.page = page) := by
  have hfalse : ∀ h : (false : Bool) = true, page ∈ st.pages_with_routes :=
    fun h => absurd h (by decide)
  unfold rowAccOf
  by_cases hc : (parse_chips row.suggested_chips).isEmpty
  · simp only [hc, if_true]
    obtain ⟨n1, n2, n3, n4, n5, n6, n7⟩ := noChipsStep_facts page
      (if truthy (sanitize row.intent_name) then (sanitize row.intent_name).getD ""
        else "Intent_" ++ slugify page ++ "_" ++ Nat.repr i)
      (parse_trigger_and_example (sanitize row.trigger)).2
      (if truthy (sanitize row.webhook_action) then
        generate_webhook_tag ((sanitize row.webhook_action).getD "") else none)
      (if (parse_params (sanitize row.parameter_set)).isEmpty then none
        else some (parse_params (sanitize row.parameter_set)))
      (parse_next_pages (sanitize row.next_page) 1)
      ⟨st.data.intents, st.data.routes, st.pages_with_routes, false⟩
    exact ⟨n1, n2, n3, n4, n5 hfalse, n6, fun h => (n7 h).resolve_left (by simp)⟩
  · simp only [hc, if_false]
    refine ⟨fun r h => chipLoop_routes_mono _ _ r h, ?_, fun p h => chipLoop_pwr_mono _ _ p h,
      ?_, ?_, ?_, ?_⟩
    · intro r h
      exact chipLoop_routes_shape _ _ r h
    · intro p h
      exact chipLoop_pwr_shape _ _ p h
    · exact chipLoop_page_pwr _ _ hfalse
    · intro h
      exact chipLoop_hvr_false _ _ h
    · intro h
      exact (chipLoop_hvr_true_route _ _ h).resolve_left (by simp)

/-! ### Facts about the page table, end-page and pass-2 helpers -/

lemma rowPages_keys (st : ConvState) (row : Row) (page p : String) :
    p ∈ (rowPages st row page).map Prod.fst ↔
      p ∈ st.data.pages.map Prod.fst ∨ p = page := by
  unfold rowPages
  rw [keys_updateA]
  exact keys_setdefaultA _ _ _ _

lemma rowPages_prompts_ne (st : ConvState) (row : Row) (page : String) {p : String}
    (h : p ≠ page) :
    pagePrompts (rowPages st row page) p = pagePrompts st.data.pages p := by
  unfold rowPages pagePrompts
  rw [lookupA_updateA_ne _ h, lookupA_setdefaultA_ne _ h]

lemma rowPages_prompts_self (st : ConvState) (row : Row) (page : String) :
    pagePrompts (rowPages st row page) page ≠ [] →
      truthy (sanitize row.bot_prompt) = true ∨
      pagePrompts st.data.pages page ≠ [] := by
  unfold rowPages pagePrompts
  rw [lookupA_updateA_self, lookupA_setdefaultA_self]
  simp only [Option.map_some']
  intro hne
  by_cases ht : truthy (sanitize row.bot_prompt) = true
  · exact Or.inl ht
  · right
    have hcond : ¬(truthy (sanitize row.bot_prompt) = true ∧
        (sanitize row.bot_prompt).getD "" ∉
          ((lookupA st.data.pages page).getD ⟨[], []⟩).prompts) :=
      fun hh => ht hh.1
    rw [if_neg hcond] at hne
    cases hl : lookupA st.data.pages page with
    | some pi =>
      rw [hl] at hne
      exact hne
    | none =>
      rw [hl] at hne
      simp at hne

lemma rowEndPages_mono (st : ConvState) (row : Row) (page : String) (acc : RowAcc) :
    ∀ p ∈ st.data.end_pages, p ∈ rowEndPages st row page acc := by
  intro p h
  unfold rowEndPages
  by_cases hcond : ¬acc.hvr = true ∧ truthy (sanitize row.bot_prompt) = true ∧
      page ∉ st.data.end_pages
  · rw [if_pos hcond]; exact List.mem_append_left _ h
  · rw [if_neg hcond]; exact h

lemma rowEndPages_page (st : ConvState) (row : Row) (page : String) (acc : RowAcc)
    (hv : acc.hvr = false) (hb : truthy (sanitize row.bot_prompt) = true) :
    page ∈ rowEndPages st row page acc := by
  unfold rowEndPages
  by_cases hin : page ∈ st.data.end_pages
  · exact rowEndPages_mono st row page acc page hin
  · rw [if_pos ⟨by rw [hv]; decide, hb, hin⟩]
    exact List.mem_append_right _ (List.mem_singleton_self _)

lemma not_mem_referencedPages :
    ∀ (routes : List RouteE) (acc : List String) (p : String), p ∉ acc →
      (∀ r ∈ routes, r.next_page ≠ some p) → p ∉ referencedPages routes acc := by
  intro routes
  induction routes with
  | nil => intro acc p hacc _ h; exact hacc h
  | cons r rest ih =>
    intro acc p hacc hall
    simp only [referencedPages]
    by_cases ht : truthy r.next_page = true
    · rw [if_pos ht]
      refine ih _ p ?_ (fun r' hr' => hall r' (List.mem_cons_of_mem _ hr'))
      intro hm
      rcases mem_insertSet.mp hm with h1 | h1
      · exact hacc h1
      · refine hall r (List.mem_cons_self _ _) ?_
        cases hnp : r.next_page with
        | none => rw [hnp] at ht; simp [truthy] at ht
        | some q =>
          rw [hnp] at h1
          simp only [Option.getD_some] at h1
          rw [h1]
    · rw [if_neg ht]
      exact ih _ p hacc (fun r' hr' => hall r' (List.mem_cons_of_mem _ hr'))

lemma inferEndPages_mono (referenced pwr : List String) (firstPage : Option String) :
    ∀ (l ep : List String) (p : String), p ∈ ep →
      p ∈ inferEndPages referenced pwr firstPage l ep := by
  intro l
  induction l with
  | nil => intro ep p h; exact h
  | cons q rest ih =>
    intro ep p h
    simp only [inferEndPages]
    by_cases hcond : q ∉ referenced ∧ firstPage ≠ some q ∧ q ∉ pwr ∧ q ∉ ep
    · rw [if_pos hcond]
      exact ih _ p (List.mem_append_left _ h)
    · rw [if_neg hcond]
      exact ih _ p h

lemma inferEndPages_complete (referenced pwr : List String) (firstPage : Option String) :
    ∀ (l ep : List String) (p : String), p ∈ l → p ∉ referenced →
      firstPage ≠ some p → p ∉ pwr →
      p ∈ inferEndPages referenced pwr firstPage l ep := by
  intro l
  induction l with
  | nil => intro ep p h; cases h
  | cons q rest ih =>
    intro ep p hmem href hfp hpwr
    simp only [inferEndPages]
    rcases List.mem_cons.mp hmem with rfl | hrest
    · by_cases hcond : p ∉ referenced ∧ firstPage ≠ some p ∧ p ∉ pwr ∧ p ∉ ep
      · rw [if_pos hcond]
        exact inferEndPages_mono referenced pwr firstPage rest _ p
          (List.mem_append_right _ (List.mem_singleton_self _))
      · rw [if_neg hcond]
        push_neg at hcond
        exact inferEndPages_mono referenced pwr firstPage rest _ p
          (hcond href hfp hpwr)
    · by_cases hcond : q ∉ referenced ∧ firstPage ≠ some q ∧ q ∉ pwr ∧ q ∉ ep
      · rw [if_pos hcond]
        exact ih _ p hrest href hfp hpwr
      · rw [if_neg hcond]
        exact ih _ p hrest href hfp hpwr

/-! ### The compiler invariant -/

/-- Invariant carried by the row loop of `convert_single_csv`. -/
def Inv (st : ConvState) : Prop :=
  (∀ r ∈ st.data.routes, r.page ∈ st.data.pages.map Prod.fst) ∧
  (∀ r ∈ st.data.routes, r.page ∈ st.pages_with_routes) ∧
  (∀ p ∈ st.pages_with_routes, ∃ r ∈ st.data.routes, r.page = p) ∧
  (∀ p : String, p ∈ st.all_pages ↔ p ∈ st.data.pages.map Prod.fst) ∧
  (∀ p ∈ st.data.pages.map Prod.fst,
    pagePrompts st.data.pages p ≠ [] → p ∉ st.pages_with_routes →
    p ∈ st.data.end_pages)

lemma processRow_inv (st : ConvState) (i : Nat) (row : Row) (h : Inv st) :
    Inv (processRow st i row) := by
  obtain ⟨h1, h2, h3, h4, h5⟩ := h
  unfold processRow
  cases hpn : sanitize row.page_name with
  | none => exact ⟨h1, h2, h3, h4, h5⟩
  | some page =>
    obtain ⟨f1, f2, f3, f4, f5, f6, f7⟩ := rowAccOf_facts st i row page
    refine ⟨?_, ?_, ?_, ?_, ?_⟩
    · intro r hr
      rcases f2 r hr with hold | ⟨hpg, _⟩
      · exact (rowPages_keys st row page r.page).mpr (Or.inl (h1 r hold))
      · exact (rowPages_keys st row page r.page).mpr (Or.inr hpg)
    · intro r hr
      rcases f2 r hr with hold | ⟨hpg, hv⟩
      · exact f3 _ (h2 r hold)
      · rw [hpg]
        exact f5.mpr (Or.inr hv)
    · intro p hp
      rcases f4 p hp with hold | rfl
      · obtain ⟨r, hr, hrp⟩ := h3 p hold
        exact ⟨r, f1 r hr, hrp⟩
      · rcases f5.mp hp with hold | hv
        · obtain ⟨r, hr, hrp⟩ := h3 p hold
          exact ⟨r, f1 r hr, hrp⟩
        · exact f7 hv
    · intro p
      rw [rowPages_keys st row page p]
      constructor
      · intro hm
        rcases mem_insertSet.mp hm with hold | rfl
        · exact Or.inl ((h4 p).mp hold)
        · exact Or.inr rfl
      · rintro (hold | rfl)
        · exact mem_insertSet_of_mem ((h4 p).mpr hold)
        · exact self_mem_insertSet _ _
    · intro p hkeys hprompts hpwr
      by_cases hpp : p = page
      · subst hpp
        have hv : (rowAccOf st i row p).hvr = false := by
          cases hv : (rowAccOf st i row p).hvr with
          | false => rfl
          | true => exact absurd (f5.mpr (Or.inr hv)) hpwr
        rcases rowPages_prompts_self st row p hprompts with hb | hold
        · exact rowEndPages_page st row p _ hv hb
        · have hpold : p ∉ st.pages_with_routes := fun hm => hpwr (f3 p hm)
          have hkold : p ∈ st.data.pages.map Prod.fst := by
            unfold pagePrompts at hold
            cases hl : lookupA st.data.pages p with
            | some pi => exact (lookupA_isSome_iff_mem _ _).mp (by rw [hl]; rfl)
            | none => rw [hl] at hold; exact absurd rfl hold
          exact rowEndPages_mono st row p _ p (h5 p hkold hold hpold)
      · have hkold : p ∈ st.data.pages.map Prod.fst := by
          rcases (rowPages_keys st row page p).mp hkeys with hold | hcontra
          · exact hold
          · exact absurd hcontra hpp
        have hprold : pagePrompts st.data.pages p ≠ [] := by
          rw [← rowPages_prompts_ne st row page hpp]
          exact hprompts
        have hpold : p ∉ st.pages_with_routes := fun hm => hpwr (f3 p hm)
        exact rowEndPages_mono st row page _ p (h5 p hkold hprold hpold)

lemma processRows_inv :
    ∀ (rows : List Row) (st : ConvState) (i : Nat), Inv st →
      Inv (processRows st i rows) := by
  intro rows
  induction rows with
  | nil => intro st i h; exact h
  | cons row rest ih =>
    intro st i h
    exact ih _ _ (processRow_inv st i row h)

lemma Inv_init : Inv ⟨⟨[], [], [], [], none, []⟩, [], []⟩ := by
  unfold Inv
  exact ⟨fun r hr => absurd hr (List.not_mem_nil r),
    fun r hr => absurd hr (List.not_mem_nil r),
    fun p hp => absurd hp (List.not_mem_nil p),
    fun p => by simp,
    fun p hp => absurd hp (by simp)⟩

/-! ### C2: route targets versus the pages table -/

/-- Single test row: page name, bot prompt, next page; all other cells absent. -/
def mkRow (pg pr np : Option String) : Row := ⟨pg, none, none, pr, np, none, none, none⟩

/-- C2 counterexample: a row whose transition target names a page that never
appears in the Page Name column produces a route whose non-null `next_page`
("B") is absent from the keys of the pages table. -/
theorem convert_route_target_counterexample :
    (convert_rows [mkRow (some "A") (some "hi") (some "B")]).routes =
      [⟨"A", "Intent_a_0", some "B", none, none⟩] ∧
    (convert_rows [mkRow (some "A") (some "hi") (some "B")]).pages.map Prod.fst = ["A"] ∧
    "B" ∉ (convert_rows [mkRow (some "A") (some "hi") (some "B")]).pages.map Prod.fst := by
  exact ⟨by decide, by decide, by decide⟩

/-- C2 (amended): every route's OWNING page exists in the graph's pages table
(a route is only appended right after its source page is registered); a route's
target `next_page`, however, may name a page that is absent from the table —
such dangling targets are only skipped later, at upload time. -/
theorem convert_rows_route_page_exists (rows : List Row) :
    ∀ r ∈ (convert_rows rows).routes,
      r.page ∈ (convert_rows rows).pages.map Prod.fst := by
  have hinv := processRows_inv rows ⟨⟨[], [], [], [], none, []⟩, [], []⟩ 0 Inv_init
  intro r hr
  exact hinv.1 r hr

theorem convert_rows_route_page_exists_witness :
    (⟨"A", "Intent_a_0", some "B", none, none⟩ : RouteE) ∈
      (convert_rows [mkRow (some "A") (some "hi") (some "B")]).routes ∧
    "A" ∈ (convert_rows [mkRow (some "A") (some "hi") (some "B")]).pages.map Prod.fst :=
  ⟨by decide,
   by
    have h := convert_rows_route_page_exists [mkRow (some "A") (some "hi") (some "B")]
      ⟨"A", "Intent_a_0", some "B", none, none⟩ (by decide)
    simpa using h⟩

/-! ### C3: end-state classification -/

/-- Rows of the C3 counterexample: A and C both route to B; B has no prompt and
no outgoing route. -/
def c3Rows : List Row :=
  [mkRow (some "A") (some "x") (some "B"),
   mkRow (some "C") (some "y") (some "B"),
   mkRow (some "B") none none]

/-- C3 counterexample: page "C" is never referenced as any route's target and is
not the first page, yet it is not in `end_pages` (it has an outgoing route, which
the claim says should not matter); page "B" appears only as a route target and
its own row contains no valid outgoing route, yet it is also not in `end_pages`
— `end_pages` is empty. -/
theorem convert_end_state_claim_counterexample :
    (convert_rows c3Rows).end_pages = [] ∧
    (convert_rows c3Rows).first_page = some "A" ∧
    (convert_rows c3Rows).pages.map Prod.fst = ["A", "C", "B"] ∧
    (convert_rows c3Rows).routes.map RouteE.page = ["A", "C"] ∧
    (convert_rows c3Rows).routes.map RouteE.next_page = [some "B", some "B"] := by
  exact ⟨by decide, by decide, by decide, by decide, by decide⟩

/-- C3 (amended): after compilation (a) every page with nonempty accumulated
prompt content and zero outgoing routes is in `end_pages`; and (b) every page
never referenced as any route's target that is not the first page AND has zero
outgoing routes is in `end_pages`.  In particular, a page that appears only as a
route target and whose own rows contain no valid outgoing route is in
`end_pages` provided it has nonempty prompt content (by (a)). -/
theorem convert_rows_end_state (rows : List Row) :
    (∀ p ∈ (convert_rows rows).pages.map Prod.fst,
      pagePrompts (convert_rows rows).pages p ≠ [] →
      (∀ r ∈ (convert_rows rows).routes, r.page ≠ p) →
      p ∈ (convert_rows rows).end_pages) ∧
    (∀ p ∈ (convert_rows rows).pages.map Prod.fst,
      (∀ r ∈ (convert_rows rows).routes, r.next_page ≠ some p) →
      (convert_rows rows).first_page ≠ some p →
      (∀ r ∈ (convert_rows rows).routes, r.page ≠ p) →
      p ∈ (convert_rows rows).end_pages) := by
  obtain ⟨h1, h2, h3, h4, h5⟩ :=
    processRows_inv rows ⟨⟨[], [], [], [], none, []⟩, [], []⟩ 0 Inv_init
  constructor
  · intro p hkeys hprompts hnoroute
    have hpwr : p ∉ (processRows ⟨⟨[], [], [], [], none, []⟩, [], []⟩ 0
        rows).pages_with_routes := by
      intro hm
      obtain ⟨r, hr, hrp⟩ := h3 p hm
      exact hnoroute r hr hrp
    exact inferEndPages_mono _ _ _ _ _ p (h5 p hkeys hprompts hpwr)
  · intro p hkeys hrefs hfp hnoroute
    have hpwr : p ∉ (processRows ⟨⟨[], [], [], [], none, []⟩, [], []⟩ 0
        rows).pages_with_routes := by
      intro hm
      obtain ⟨r, hr, hrp⟩ := h3 p hm
      exact hnoroute r hr hrp
    have hall : p ∈ (processRows ⟨⟨[], [], [], [], none, []⟩, [], []⟩ 0
        rows).all_pages := (h4 p).mpr hkeys
    have hnref := not_mem_referencedPages
      (processRows ⟨⟨[], [], [], [], none, []⟩, [], []⟩ 0 rows).data.routes [] p
      (List.not_mem_nil p) hrefs
    exact inferEndPages_complete _ _ _ _ _ p hall hnref hfp hpwr

theorem convert_rows_end_state_witness :
    "A" ∈ (convert_rows [mkRow (some "A") (some "hi") none]).pages.map Prod.fst ∧
    "A" ∈ (convert_rows [mkRow (some "A") (some "hi") none]).end_pages :=
  ⟨by decide,
   (convert_rows_end_state [mkRow (some "A") (some "hi") none]).1 "A" (by decide)
     (by decide) (by decide)⟩

/-! ### The synchronization engine: `upload_to_dialogflow.py`

The remote agent is a `Remote` store of resources keyed by opaque numeric ids
(fresh ids come from a counter); the uploader's in-run `cache` dict is `Cache`.
Every operation returns its result, the new state and the `ApiCall` trace it
issued; PATCH/GET calls never change the store, POST (create) appends to it. -/

structure WebhookRes where
  id : Nat
  displayName : String
  uri : String
  requestHeaders : Option (List (String × String))
deriving DecidableEq

structure PageRes where
  flowId : Nat
  id : Nat
  displayName : String
deriving DecidableEq

structure Remote where
  flows : List (Nat × String)
  webhooks : List WebhookRes
  intents : List (Nat × String)
  pages : List PageRes
  fresh : Nat
deriving DecidableEq

/-- The uploader's `self.cache` (`intents` and `pages` slots exist in the source
but are never read or written; only `flows` and `webhooks` are used). -/
structure Cache where
  flows : List (String × Nat)
  webhooks : List (String × Nat)
deriving DecidableEq

structure S where
  remote : Remote
  cache : Cache
deriving DecidableEq

/-- `entryFulfillment.messages` content of a page payload (lines 182-197). -/
inductive PageMsg
  | textMsg (lines : List String)
  | chipsMsg (options : List String)
deriving DecidableEq

/-- `triggerFulfillment` of a route payload (lines 347-368). -/
structure TrigFulfillment where
  webhook : Option Nat
  tag : Option String
  setParameterActions : Option (List (String × String))
deriving DecidableEq

/-- A composed transition route (lines 333-370). -/
structure RoutePayload where
  intent : Option Nat
  targetPage : Nat
  triggerFulfillment : Option TrigFulfillment
deriving DecidableEq

inductive ApiCall
  | listFlows
  | createFlow (displayName : String)
  | listWebhooks
  | createWebhook (displayName uri : String)
      (requestHeaders : Option (List (String × String)))
  | listIntents
  | createIntent (displayName : String) (trainingPhrases : List String)
  | patchIntent (id : Nat) (trainingPhrases : List String)
  | listPages (flowId : Nat)
  | createPage (flowId : Nat) (displayName : String) (messages : List PageMsg)
  | patchPageFulfillment (id : Nat) (messages : List PageMsg)
  | patchPageRoutes (id : Nat) (routes : List RoutePayload)
  | patchFlowStart (flowId : Nat) (targetPage : Nat)
deriving DecidableEq

/-- `list_by_name` (lines 104-107) builds a displayName-keyed dict from a listing;
duplicate display names keep the LAST item, as the dict comprehension does. -/
def lookupLast (l : List (String × Nat)) (k : String) : Option Nat :=
  match l with
  | [] => none
  | kv :: rest =>
    match lookupLast rest k with
    | some v => some v
    | none => if kv.1 = k then some kv.2 else none

/-- The flows listing indexed by display name. -/
def flowsIdx (r : Remote) : List (String × Nat) :=
  r.flows.map (fun f => (f.2, f.1))

/-- The webhook listing indexed by display name (last wins, like the dict). -/
def webhookLookup (l : List WebhookRes) (n : String) : Option WebhookRes :=
  match l with
  | [] => none
  | w :: rest =>
    match webhookLookup rest n with
    | some w' => some w'
    | none => if w.displayName = n then some w else none

/-- The intents listing indexed by display name. -/
def intentNamesIdx (r : Remote) : List (String × Nat) :=
  r.intents.map (fun it => (it.2, it.1))

/-- The flow's pages listing indexed by display name. -/
def pagesNamesIdx (r : Remote) (flowId : Nat) : List (String × Nat) :=
  (r.pages.filter (fun p => p.flowId = flowId)).map (fun p => (p.displayName, p.id))

/-- `upsert_flow` (lines 109-125): cache, then lookup by display name, else create. -/
def upsert_flow (displayName : String) (s : S) : Nat × S × List ApiCall :=
  match lookupA s.cache.flows displayName with
  | some fid => (fid, s, [])
  | none =>
    match lookupLast (flowsIdx s.remote) displayName with
    | some fid =>
      (fid, ⟨s.remote, ⟨assocSet s.cache.flows displayName fid, s.cache.webhooks⟩⟩,
       [.listFlows])
    | none =>
      let fid := s.remote.fresh
      (fid,
       ⟨{ s.remote with flows := s.remote.flows ++ [(fid, displayName)], fresh := fid + 1 },
        ⟨assocSet s.cache.flows displayName fid, s.cache.webhooks⟩⟩,
       [.listFlows, .createFlow displayName])

/-- `upsert_webhook` (lines 127-148): cached by `name::uri`; an existing remote
webhook with the display name is reused untouched, else one is created. -/
def upsert_webhook (displayName uri : String)
    (headersMap : Option (List (String × String))) (s : S) : Nat × S × List ApiCall :=
  match lookupA s.cache.webhooks (displayName ++ "::" ++ uri) with
  | some wid => (wid, s, [])
  | none =>
    match webhookLookup s.remote.webhooks displayName with
    | some w =>
      (w.id,
       ⟨s.remote,
        ⟨s.cache.flows, assocSet s.cache.webhooks (displayName ++ "::" ++ uri) w.id⟩⟩,
       [.listWebhooks])
    | none =>
      let wid := s.remote.fresh
      (wid,
       ⟨{ s.remote with
            webhooks := s.remote.webhooks ++ [⟨wid, displayName, uri, headersMap⟩],
            fresh := wid + 1 },
        ⟨s.cache.flows, assocSet s.cache.webhooks (displayName ++ "::" ++ uri) wid⟩⟩,
       [.listWebhooks, .createWebhook displayName uri headersMap])

/-- The `trainingPhrases` body (lines 156-162): phrases filtered by truthiness. -/
def intentBody (trainingPhrases : List String) : List String :=
  trainingPhrases.filter (· ≠ "")

/-- `upsert_intent` (lines 150-173).  A `none` or empty index is falsy in Python
and triggers a fresh listing. -/
def upsert_intent (displayName : String) (trainingPhrases : List String)
    (intentsIndex : Option (List (String × Nat))) (s : S) : Nat × S × List ApiCall :=
  let fetch := intentsIndex = none ∨ intentsIndex = some []
  let effIdx := if fetch then intentNamesIdx s.remote else intentsIndex.getD []
  let calls0 : List ApiCall := if fetch then [.listIntents] else []
  match lookupLast effIdx displayName with
  | some iid => (iid, s, calls0 ++ [.patchIntent iid (intentBody trainingPhrases)])
  | none =>
    let iid := s.remote.fresh
    (iid,
     ⟨{ s.remote with intents := s.remote.intents ++ [(iid, displayName)], fresh := iid + 1 },
      s.cache⟩,
     calls0 ++ [.createIntent displayName (intentBody trainingPhrases)])

/-- The entry-fulfillment message list (lines 182-192). -/
def pageMsgs (prompts chips : List String) : List PageMsg :=
  (if prompts ≠ [] then [PageMsg.textMsg prompts] else []) ++
  (if chips ≠ [] then [PageMsg.chipsMsg chips] else [])

/-- `upsert_page` (lines 175-208).  The `is_end_state` parameter is accepted but
never used by the body, exactly as in the source. -/
def upsert_page (flowId : Nat) (displayName : String) (prompts chips : List String)
    (pagesIndex : Option (List (String × Nat))) (is_end_state : Bool) (s : S) :
    Nat × S × List ApiCall :=
  let fetch := pagesIndex = none ∨ pagesIndex = some []
  let effIdx := if fetch then pagesNamesIdx s.remote flowId else pagesIndex.getD []
  let calls0 : List ApiCall := if fetch then [.listPages flowId] else []
  match lookupLast effIdx displayName with
  | some pid => (pid, s, calls0 ++ [.patchPageFulfillment pid (pageMsgs prompts chips)])
  | none =>
    let pid := s.remote.fresh
    (pid,
     ⟨{ s.remote with
          pages := s.remote.pages ++ [⟨flowId, pid, displayName⟩],
          fresh := pid + 1 },
      s.cache⟩,
     calls0 ++ [.createPage flowId displayName (pageMsgs prompts chips)])

/-- `patch_flow_start_route` (lines 210-223): resolve the first page in a fresh
page listing; missing resolution raises (modeled as `false`).  State unchanged. -/
def patch_flow_start_route (flowId : Nat) (firstPageName : String) (s : S) :
    Bool × List ApiCall :=
  match lookupLast (pagesNamesIdx s.remote flowId) firstPageName with
  | none => (false, [.listPages flowId])
  | some target => (true, [.listPages flowId, .patchFlowStart flowId target])

/-- Uploader configuration relevant to a single upload. -/
structure UploaderCfg where
  dispatcher_url : String
  dispatcher_header : Option String
deriving DecidableEq

/-- The dispatcher `headers_map` (lines 253-257): a single `Key=Value` header. -/
def headersMapOf (cfg : UploaderCfg) : Option (List (String × String)) :=
  match cfg.dispatcher_header with
  | none => none
  | some h =>
    if pyContains h '=' then
      some [(pyStrip (splitFirst '=' h).1, pyStrip (splitFirst '=' h).2)]
    else none

/-- `has_webhooks or data.get("webhooks")` (lines 250-252). -/
def hasWebhooksOf (g : Graph) : Bool :=
  g.routes.any (fun r => truthy r.webhook_action) || !g.webhooks.isEmpty

/-- The pages loop of `upload_single_flow` (lines 268-284): upsert each page,
recording its id in `page_name_to_id` and refreshing `pages_index`. -/
def pagesLoop (flowId : Nat) (endPages : List String) :
    List (String × PageInfo) → List (String × Nat) → List (String × Nat) → S →
      List ApiCall → List (String × Nat) × List (String × Nat) × S × List ApiCall
  | [], pm, pidx, s, tr => (pm, pidx, s, tr)
  | (page, info) :: rest, pm, pidx, s, tr =>
    let res := upsert_page flowId page info.prompts info.chips (some pidx)
      (decide (page ∈ endPages)) s
    pagesLoop flowId endPages rest (assocSet pm page res.1) (assocSet pidx page res.1)
      res.2.1 (tr ++ res.2.2)

/-- The intents loop of `upload_single_flow` (lines 286-292). -/
def intentsLoop :
    List (String × List String) → List (String × Nat) → List (String × Nat) → S →
      List ApiCall → List (String × Nat) × List (String × Nat) × S × List ApiCall
  | [], im, iidx, s, tr => (im, iidx, s, tr)
  | (iname, phrases) :: rest, im, iidx, s, tr =>
    let res := upsert_intent iname phrases (some iidx) s
    intentsLoop rest (assocSet im iname res.1) (assocSet iidx iname res.1)
      res.2.1 (tr ++ res.2.2)

/-- `routes_by_page.setdefault(page, []).append(r)` grouping (lines 294-307). -/
def groupAppend (l : List (String × List RouteE)) (k : String) (r : RouteE) :
    List (String × List RouteE) :=
  match l with
  | [] => [(k, [r])]
  | (k', rs) :: rest =>
    if k' = k then (k', rs ++ [r]) :: rest else (k', rs) :: groupAppend rest k r

/-- Grouping of valid routes (non-null, nonempty `next_page`) by owning page. -/
def routesByPage : List RouteE → List (String × List RouteE) →
    List (String × List RouteE)
  | [], acc => acc
  | r :: rest, acc =>
    if truthy r.next_page then routesByPage rest (groupAppend acc r.page r)
    else routesByPage rest acc

/-- Composition of one page's transition routes (lines 319-370): skip routes
whose target page is unresolved, attach trigger fulfillment only when a webhook
action (with a dispatcher) or a non-empty parameter exists. -/
def composeRoutes (dispatcher : Option Nat) (intentMap pageMap : List (String × Nat)) :
    List RouteE → List RoutePayload
  | [] => []
  | r :: rest =>
    match r.next_page with
    | none => composeRoutes dispatcher intentMap pageMap rest
    | some np =>
      if np = "" then composeRoutes dispatcher intentMap pageMap rest
      else
        match lookupA pageMap np with
        | none => composeRoutes dispatcher intentMap pageMap rest
        | some target =>
          let intentRef := lookupA intentMap r.intent
          let hasW := truthy r.webhook_action && dispatcher.isSome
          let hasP : Bool := match r.parameters with
            | some ps => ps.any (fun kv => kv.2 ≠ "")
            | none => false
          let payload : RoutePayload :=
            if hasW || hasP then
              let trigW := if hasW then dispatcher else none
              let trigT := if hasW then r.webhook_action else none
              let pActs := match r.parameters with
                | some ps => ps.filter (fun kv => kv.1 ≠ "" ∧ kv.2 ≠ "")
                | none => []
              let trigP := if hasP && !pActs.isEmpty then some pActs else none
              if trigW.isSome || trigT.isSome || trigP.isSome then
                ⟨intentRef, target, some ⟨trigW, trigT, trigP⟩⟩
              else ⟨intentRef, target, none⟩
            else ⟨intentRef, target, none⟩
          payload :: composeRoutes dispatcher intentMap pageMap rest

/-- The route-application loop (lines 311-379): one PATCH per page that has
composed routes; pages missing from `page_name_to_id` are skipped.  No state
change — PATCH only. -/
def applyRoutesLoop (dispatcher : Option Nat) (intentMap pageMap : List (String × Nat)) :
    List (String × List RouteE) → List ApiCall
  | [] => []
  | (page, rs) :: rest =>
    match lookupA pageMap page with
    | none => applyRoutesLoop dispatcher intentMap pageMap rest
    | some pid =>
      let trs := composeRoutes dispatcher intentMap pageMap rs
      (if trs ≠ [] then [ApiCall.patchPageRoutes pid trs] else []) ++
        applyRoutesLoop dispatcher intentMap pageMap rest

/-- The dispatcher-webhook stage of `upload_single_flow` (lines 248-262). -/
def uploadDispatcher (cfg : UploaderCfg) (g : Graph) (s : S) :
    Option Nat × S × List ApiCall :=
  if hasWebhooksOf g then
    let wres := upsert_webhook "Dispatcher" cfg.dispatcher_url (headersMapOf cfg) s
    (some wres.1, wres.2.1, wres.2.2)
  else (none, s, ([] : List ApiCall))

/-- `upload_single_flow` (lines 225-392) on an already-loaded graph: flow name
derivation from the file name is out of scope, `flowName` is the result.
Returns the success flag, the final state and the full call trace. -/
def upload_single_flow (cfg : UploaderCfg) (flowName : String) (g : Graph) (s : S) :
    Bool × S × List ApiCall :=
  let fres := upsert_flow flowName s
  let flowId := fres.1
  let dres := uploadDispatcher cfg g fres.2.1
  let s2 := dres.2.1
  let pres := pagesLoop flowId g.end_pages g.pages [] (pagesNamesIdx s2.remote flowId)
    s2 []
  let ires := intentsLoop g.intents [] (intentNamesIdx s2.remote) pres.2.2.1 []
  let routeCalls := applyRoutesLoop dres.1 ires.1 pres.1 (routesByPage g.routes [])
  let startRes :=
    match g.first_page with
    | none => (true, ([] : List ApiCall))
    | some fp => patch_flow_start_route flowId fp ires.2.2.1
  (startRes.1, ires.2.2.1,
   fres.2.2 ++ dres.2.2 ++ [.listIntents, .listPages flowId] ++ pres.2.2.2 ++
     ires.2.2.2 ++ routeCalls ++ startRes.2)

/-! ### Dictionary lemmas for the synchronization proofs -/

lemma lookupA_assocSet_self {β : Type} (l : List (String × β)) (k : String) (v : β) :
    lookupA (assocSet l k v) k = some v := by
  induction l with
  | nil => simp [assocSet, lookupA]
  | cons kv rest ih =>
    obtain ⟨k', v'⟩ := kv
    by_cases h : k' = k
    · simp [assocSet, lookupA, h]
    · simp [assocSet, lookupA, h, ih]

lemma lookupA_assocSet_ne {β : Type} (l : List (String × β)) {k p : String}
    (h : p ≠ k) (v : β) :
    lookupA (assocSet l k v) p = lookupA l p := by
  induction l with
  | nil => simp [assocSet, lookupA, Ne.symm h]
  | cons kv rest ih =>
    obtain ⟨k', v'⟩ := kv
    by_cases hk : k' = k
    · subst hk
      simp [assocSet, lookupA, Ne.symm h]
    · by_cases hp : k' = p
      · simp [assocSet, lookupA, hk, hp, h]
      · simp [assocSet, lookupA, hk, hp, ih]

lemma keys_assocSet {β : Type} (l : List (String × β)) (k : String) (v : β)
    (p : String) :
    p ∈ (assocSet l k v).map Prod.fst ↔ p ∈ l.map Prod.fst ∨ p = k := by
  induction l with
  | nil => simp [assocSet]
  | cons kv rest ih =>
    obtain ⟨k', v'⟩ := kv
    by_cases h : k' = k
    · subst h
      simp only [assocSet, eq_self_iff_true, if_true, List.map_cons, List.mem_cons]
      tauto
    · simp only [assocSet, if_neg h, List.map_cons, List.mem_cons, ih]
      tauto

lemma lookupLast_mem_keys (l : List (String × Nat)) (k : String) :
    (lookupLast l k).isSome ↔ k ∈ l.map Prod.fst := by
  induction l with
  | nil => simp [lookupLast]
  | cons kv rest ih =>
    obtain ⟨k', v'⟩ := kv
    simp only [lookupLast, List.map_cons, List.mem_cons]
    cases hrest : lookupLast rest k with
    | some v =>
      simp only [Option.isSome_some, true_iff]
      rw [hrest] at ih
      exact Or.inr (ih.mp rfl)
    | none =>
      rw [hrest] at ih
      by_cases h : k' = k
      · simp [h]
      · simp only [if_neg h, Option.isSome_none]
        constructor
        · intro hc; exact absurd hc (by simp)
        · rintro (rfl | hm)
          · exact absurd rfl h
          · exact absurd (ih.mpr hm) (by simp)

lemma mem_keys_lookupLast {l : List (String × Nat)} {k : String}
    (h : k ∈ l.map Prod.fst) : ∃ v, lookupLast l k = some v := by
  have := (lookupLast_mem_keys l k).mpr h
  exact Option.isSome_iff_exists.mp this

lemma lookupLast_some_mem {l : List (String × Nat)} {k : String} {v : Nat}
    (h : lookupLast l k = some v) : k ∈ l.map Prod.fst :=
  (lookupLast_mem_keys l k).mp (by rw [h]; rfl)

/-- Names index of a remote with one appended page. -/
lemma pagesNamesIdx_append (r : Remote) (fid : Nat) (e : PageRes) (fr : Nat) :
    pagesNamesIdx { r with pages := r.pages ++ [e], fresh := fr } fid =
      pagesNamesIdx r fid ++
        (if e.flowId = fid then [(e.displayName, e.id)] else []) := by
  simp only [pagesNamesIdx, List.filter_append, List.map_append]
  by_cases h : e.flowId = fid <;> simp [h]

lemma intentNamesIdx_append (r : Remote) (e : Nat × String) (fr : Nat) :
    intentNamesIdx { r with intents := r.intents ++ [e], fresh := fr } =
      intentNamesIdx r ++ [(e.2, e.1)] := by
  simp [intentNamesIdx]

/-! ### Frame and hit lemmas for each upsert operation -/

lemma upsert_flow_cache_hit {n : String} {s : S} {fid : Nat}
    (h : lookupA s.cache.flows n = some fid) :
    upsert_flow n s = (fid, s, []) := by
  simp [upsert_flow, h]

lemma upsert_flow_frame (n : String) (s : S) :
    lookupA (upsert_flow n s).2.1.cache.flows n = some (upsert_flow n s).1 ∧
    (upsert_flow n s).2.1.cache.webhooks = s.cache.webhooks ∧
    (upsert_flow n s).2.1.remote.webhooks = s.remote.webhooks ∧
    (upsert_flow n s).2.1.remote.intents = s.remote.intents ∧
    (upsert_flow n s).2.1.remote.pages = s.remote.pages := by
  unfold upsert_flow
  cases hc : lookupA s.cache.flows n with
  | some fid => exact ⟨hc, rfl, rfl, rfl, rfl⟩
  | none =>
    cases hr : lookupLast (flowsIdx s.remote) n with
    | some fid => exact ⟨lookupA_assocSet_self _ _ _, rfl, rfl, rfl, rfl⟩
    | none => exact ⟨lookupA_assocSet_self _ _ _, rfl, rfl, rfl, rfl⟩

lemma upsert_webhook_cache_hit {n uri : String}
    {hm : Option (List (String × String))} {s : S} {wid : Nat}
    (h : lookupA s.cache.webhooks (n ++ "::" ++ uri) = some wid) :
    upsert_webhook n uri hm s = (wid, s, []) := by
  simp [upsert_webhook, h]

lemma upsert_webhook_frame (n uri : String) (hm : Option (List (String × String)))
    (s : S) :
    lookupA (upsert_webhook n uri hm s).2.1.cache.webhooks (n ++ "::" ++ uri) =
      some (upsert_webhook n uri hm s).1 ∧
    (upsert_webhook n uri hm s).2.1.cache.flows = s.cache.flows ∧
    (upsert_webhook n uri hm s).2.1.remote.flows = s.remote.flows ∧
    (upsert_webhook n uri hm s).2.1.remote.intents = s.remote.intents ∧
    (upsert_webhook n uri hm s).2.1.remote.pages = s.remote.pages := by
  unfold upsert_webhook
  cases hc : lookupA s.cache.webhooks (n ++ "::" ++ uri) with
  | some wid => exact ⟨hc, rfl, rfl, rfl, rfl⟩
  | none =>
    cases hr : webhookLookup s.remote.webhooks n with
    | some w => exact ⟨lookupA_assocSet_self _ _ _, rfl, rfl, rfl, rfl⟩
    | none => exact ⟨lookupA_assocSet_self _ _ _, rfl, rfl, rfl, rfl⟩

lemma upsert_intent_hit {n : String} {ph : List String}
    {idx : List (String × Nat)} {s : S} {iid : Nat}
    (h1 : idx ≠ []) (h2 : lookupLast idx n = some iid) :
    upsert_intent n ph (some idx) s = (iid, s, [.patchIntent iid (intentBody ph)]) := by
  simp [upsert_intent, h1, h2]

lemma upsert_intent_frame (n : String) (ph : List String)
    (idx : Option (List (String × Nat))) (s : S) :
    (upsert_intent n ph idx s).2.1.cache = s.cache ∧
    (upsert_intent n ph idx s).2.1.remote.flows = s.remote.flows ∧
    (upsert_intent n ph idx s).2.1.remote.webhooks = s.remote.webhooks ∧
    (upsert_intent n ph idx s).2.1.remote.pages = s.remote.pages ∧
    ((upsert_intent n ph idx s).2.1.remote.intents = s.remote.intents ∨
      (upsert_intent n ph idx s).2.1.remote.intents =
        s.remote.intents ++ [(s.remote.fresh, n)]) := by
  simp only [upsert_intent]
  by_cases hf : idx = none ∨ idx = some []
  · simp only [if_pos hf]
    cases hl : lookupLast (intentNamesIdx s.remote) n with
    | some iid => exact ⟨rfl, rfl, rfl, rfl, Or.inl rfl⟩
    | none => exact ⟨rfl, rfl, rfl, rfl, Or.inr rfl⟩
  · simp only [if_neg hf]
    cases hl : lookupLast (idx.getD []) n with
    | some iid => exact ⟨rfl, rfl, rfl, rfl, Or.inl rfl⟩
    | none => exact ⟨rfl, rfl, rfl, rfl, Or.inr rfl⟩

lemma upsert_intent_saturates (n : String) (ph : List String)
    (idx : Option (List (String × Nat))) (s : S)
    (hpre : ∀ k ∈ (idx.getD []).map Prod.fst, k ∈ (intentNamesIdx s.remote).map Prod.fst) :
    n ∈ (intentNamesIdx (upsert_intent n ph idx s).2.1.remote).map Prod.fst := by
  simp only [upsert_intent]
  by_cases hf : idx = none ∨ idx = some []
  · simp only [if_pos hf]
    cases hl : lookupLast (intentNamesIdx s.remote) n with
    | some iid => exact lookupLast_some_mem hl
    | none =>
      rw [intentNamesIdx_append]
      simp
  · simp only [if_neg hf]
    cases hl : lookupLast (idx.getD []) n with
    | some iid => exact hpre n (lookupLast_some_mem hl)
    | none =>
      rw [intentNamesIdx_append]
      simp

lemma upsert_page_hit {fid : Nat} {n : String} {prompts chips : List String}
    {pidx : List (String × Nat)} {isEnd : Bool} {s : S} {pid : Nat}
    (h1 : pidx ≠ []) (h2 : lookupLast pidx n = some pid) :
    upsert_page fid n prompts chips (some pidx) isEnd s =
      (pid, s, [.patchPageFulfillment pid (pageMsgs prompts chips)]) := by
  simp [upsert_page, h1, h2]

lemma upsert_page_frame (fid : Nat) (n : String) (prompts chips : List String)
    (pidx : Option (List (String × Nat))) (isEnd : Bool) (s : S) :
    (upsert_page fid n prompts chips pidx isEnd s).2.1.cache = s.cache ∧
    (upsert_page fid n prompts chips pidx isEnd s).2.1.remote.flows = s.remote.flows ∧
    (upsert_page fid n prompts chips pidx isEnd s).2.1.remote.webhooks =
      s.remote.webhooks ∧
    (upsert_page fid n prompts chips pidx isEnd s).2.1.remote.intents =
      s.remote.intents ∧
    ((upsert_page fid n prompts chips pidx isEnd s).2.1.remote.pages = s.remote.pages ∨
      (upsert_page fid n prompts chips pidx isEnd s).2.1.remote.pages =
        s.remote.pages ++ [⟨fid, s.remote.fresh, n⟩]) := by
  simp only [upsert_page]
  by_cases hf : pidx = none ∨ pidx = some []
  · simp only [if_pos hf]
    cases hl : lookupLast (pagesNamesIdx s.remote fid) n with
    | some pid => exact ⟨rfl, rfl, rfl, rfl, Or.inl rfl⟩
    | none => exact ⟨rfl, rfl, rfl, rfl, Or.inr rfl⟩
  · simp only [if_neg hf]
    cases hl : lookupLast (pidx.getD []) n with
    | some pid => exact ⟨rfl, rfl, rfl, rfl, Or.inl rfl⟩
    | none => exact ⟨rfl, rfl, rfl, rfl, Or.inr rfl⟩

lemma upsert_page_saturates (fid : Nat) (n : String) (prompts chips : List String)
    (pidx : Option (List (String × Nat))) (isEnd : Bool) (s : S)
    (hpre : ∀ k ∈ (pidx.getD []).map Prod.fst,
      k ∈ (pagesNamesIdx s.remote fid).map Prod.fst) :
    n ∈ (pagesNamesIdx (upsert_page fid n prompts chips pidx isEnd s).2.1.remote
      fid).map Prod.fst := by
  simp only [upsert_page]
  by_cases hf : pidx = none ∨ pidx = some []
  · simp only [if_pos hf]
    cases hl : lookupLast (pagesNamesIdx s.remote fid) n with
    | some pid => exact lookupLast_some_mem hl
    | none =>
      rw [pagesNamesIdx_append]
      simp
  · simp only [if_neg hf]
    cases hl : lookupLast (pidx.getD []) n with
    | some pid => exact hpre n (lookupLast_some_mem hl)
    | none =>
      rw [pagesNamesIdx_append]
      simp

/-- Page names never disappear from a flow's listing across `upsert_page`. -/
lemma upsert_page_names_mono (fid : Nat) (n : String) (prompts chips : List String)
    (pidx : Option (List (String × Nat))) (isEnd : Bool) (s : S) (fid' : Nat) :
    ∀ k ∈ (pagesNamesIdx s.remote fid').map Prod.fst,
      k ∈ (pagesNamesIdx (upsert_page fid n prompts chips pidx isEnd s).2.1.remote
        fid').map Prod.fst := by
  intro k hk
  rcases (upsert_page_frame fid n prompts chips pidx isEnd s).2.2.2.2 with h | h
  · rw [show pagesNamesIdx (upsert_page fid n prompts chips pidx isEnd s).2.1.remote
      fid' = pagesNamesIdx s.remote fid' by unfold pagesNamesIdx; rw [h]]
    exact hk
  · have : pagesNamesIdx (upsert_page fid n prompts chips pidx isEnd s).2.1.remote
        fid' = (s.remote.pages.filter (fun p => p.flowId = fid')).map
          (fun p => (p.displayName, p.id)) ++
          (if fid = fid' then [(n, s.remote.fresh)] else []) := by
      unfold pagesNamesIdx
      rw [h]
      simp only [List.filter_append, List.map_append]
      by_cases hf : fid = fid' <;> simp [hf]
    rw [this, List.map_append]
    exact List.mem_append_left _ hk

/-! ### Loop lemmas for `upload_single_flow` -/

lemma pagesLoop_stable (fid : Nat) (ep : List String) :
    ∀ (l : List (String × PageInfo)) (pm pidx : List (String × Nat)) (s : S)
      (tr : List ApiCall),
      (∀ n ∈ (pagesNamesIdx s.remote fid).map Prod.fst, n ∈ pidx.map Prod.fst) →
      (∀ n ∈ l.map Prod.fst, n ∈ (pagesNamesIdx s.remote fid).map Prod.fst) →
      (pagesLoop fid ep l pm pidx s tr).2.2.1 = s := by
  intro l
  induction l with
  | nil => intro pm pidx s tr _ _; rfl
  | cons entry rest ih =>
    obtain ⟨page, info⟩ := entry
    intro pm pidx s tr hidx hl
    have hpn : page ∈ (pagesNamesIdx s.remote fid).map Prod.fst := hl page (by simp)
    have hkeys : page ∈ pidx.map Prod.fst := hidx page hpn
    have hne : pidx ≠ [] := by
      intro h
      rw [h] at hkeys
      simp at hkeys
    obtain ⟨pid, hpid⟩ := mem_keys_lookupLast hkeys
    simp only [pagesLoop]
    rw [upsert_page_hit hne hpid]
    exact ih _ _ _ _
      (fun n hn => (keys_assocSet _ _ _ _).mpr (Or.inl (hidx n hn)))
      (fun n hn => hl n (by simp [hn]))

lemma intentsLoop_stable :
    ∀ (l : List (String × List String)) (im iidx : List (String × Nat)) (s : S)
      (tr : List ApiCall),
      (∀ n ∈ (intentNamesIdx s.remote).map Prod.fst, n ∈ iidx.map Prod.fst) →
      (∀ n ∈ l.map Prod.fst, n ∈ (intentNamesIdx s.remote).map Prod.fst) →
      (intentsLoop l im iidx s tr).2.2.1 = s := by
  intro l
  induction l with
  | nil => intro im iidx s tr _ _; rfl
  | cons entry rest ih =>
    obtain ⟨iname, phrases⟩ := entry
    intro im iidx s tr hidx hl
    have hpn : iname ∈ (intentNamesIdx s.remote).map Prod.fst := hl iname (by simp)
    have hkeys : iname ∈ iidx.map Prod.fst := hidx iname hpn
    have hne : iidx ≠ [] := by
      intro h
      rw [h] at hkeys
      simp at hkeys
    obtain ⟨iid, hiid⟩ := mem_keys_lookupLast hkeys
    simp only [intentsLoop]
    rw [upsert_intent_hit hne hiid]
    exact ih _ _ _ _
      (fun n hn => (keys_assocSet _ _ _ _).mpr (Or.inl (hidx n hn)))
      (fun n hn => hl n (by simp [hn]))

lemma pagesLoop_run1 (fid : Nat) (ep : List String) :
    ∀ (l : List (String × PageInfo)) (pm pidx : List (String × Nat)) (s : S)
      (tr : List ApiCall),
      (∀ n ∈ pidx.map Prod.fst, n ∈ (pagesNamesIdx s.remote fid).map Prod.fst) →
      (∀ n ∈ l.map Prod.fst,
        n ∈ (pagesNamesIdx (pagesLoop fid ep l pm pidx s tr).2.2.1.remote fid).map
          Prod.fst) ∧
      (∀ n ∈ (pagesNamesIdx s.remote fid).map Prod.fst,
        n ∈ (pagesNamesIdx (pagesLoop fid ep l pm pidx s tr).2.2.1.remote fid).map
          Prod.fst) ∧
      (pagesLoop fid ep l pm pidx s tr).2.2.1.cache = s.cache ∧
      (pagesLoop fid ep l pm pidx s tr).2.2.1.remote.flows = s.remote.flows ∧
      (pagesLoop fid ep l pm pidx s tr).2.2.1.remote.webhooks = s.remote.webhooks ∧
      (pagesLoop fid ep l pm pidx s tr).2.2.1.remote.intents = s.remote.intents := by
  intro l
  induction l with
  | nil =>
    intro pm pidx s tr _
    exact ⟨fun n hn => absurd hn (by simp), fun n hn => hn, rfl, rfl, rfl, rfl⟩
  | cons entry rest ih =>
    obtain ⟨page, info⟩ := entry
    intro pm pidx s tr hidx
    obtain ⟨fc, ff, fw, fi, -⟩ := upsert_page_frame fid page info.prompts info.chips
      (some pidx) (decide (page ∈ ep)) s
    have hsat := upsert_page_saturates fid page info.prompts info.chips (some pidx)
      (decide (page ∈ ep)) s (by simpa using hidx)
    have hmono := upsert_page_names_mono fid page info.prompts info.chips (some pidx)
      (decide (page ∈ ep)) s fid
    have hinv : ∀ n ∈ (assocSet pidx page
        (upsert_page fid page info.prompts info.chips (some pidx)
          (decide (page ∈ ep)) s).1).map Prod.fst,
        n ∈ (pagesNamesIdx (upsert_page fid page info.prompts info.chips (some pidx)
          (decide (page ∈ ep)) s).2.1.remote fid).map Prod.fst := by
      intro n hn
      rcases (keys_assocSet _ _ _ _).mp hn with h | rfl
      · exact hmono n (hidx n h)
      · exact hsat
    obtain ⟨r1, r2, r3, r4, r5, r6⟩ := ih
      (assocSet pm page (upsert_page fid page info.prompts info.chips (some pidx)
        (decide (page ∈ ep)) s).1)
      (assocSet pidx page (upsert_page fid page info.prompts info.chips (some pidx)
        (decide (page ∈ ep)) s).1)
      (upsert_page fid page info.prompts info.chips (some pidx)
        (decide (page ∈ ep)) s).2.1
      (tr ++ (upsert_page fid page info.prompts info.chips (some pidx)
        (decide (page ∈ ep)) s).2.2)
      hinv
    simp only [pagesLoop]
    refine ⟨?_, ?_, ?_, ?_, ?_, ?_⟩
    · intro n hn
      simp only [List.map_cons, List.mem_cons] at hn
      rcases hn with rfl | hr
      · exact r2 n hsat
      · exact r1 n hr
    · intro n hn
      exact r2 n (hmono n hn)
    · rw [r3, fc]
    · rw [r4, ff]
    · rw [r5, fw]
    · rw [r6, fi]

lemma intentsLoop_run1 :
    ∀ (l : List (String × List String)) (im iidx : List (String × Nat)) (s : S)
      (tr : List ApiCall),
      (∀ n ∈ iidx.map Prod.fst, n ∈ (intentNamesIdx s.remote).map Prod.fst) →
      (∀ n ∈ l.map Prod.fst,
        n ∈ (intentNamesIdx (intentsLoop l im iidx s tr).2.2.1.remote).map Prod.fst) ∧
      (∀ n ∈ (intentNamesIdx s.remote).map Prod.fst,
        n ∈ (intentNamesIdx (intentsLoop l im iidx s tr).2.2.1.remote).map Prod.fst) ∧
      (intentsLoop l im iidx s tr).2.2.1.cache = s.cache ∧
      (intentsLoop l im iidx s tr).2.2.1.remote.flows = s.remote.flows ∧
      (intentsLoop l im iidx s tr).2.2.1.remote.webhooks = s.remote.webhooks ∧
      (intentsLoop l im iidx s tr).2.2.1.remote.pages = s.remote.pages := by
  intro l
  induction l with
  | nil =>
    intro im iidx s tr _
    exact ⟨fun n hn => absurd hn (by simp), fun n hn => hn, rfl, rfl, rfl, rfl⟩
  | cons entry rest ih =>
    obtain ⟨iname, phrases⟩ := entry
    intro im iidx s tr hidx
    obtain ⟨fc, ff, fw, fp, hint⟩ := upsert_intent_frame iname phrases (some iidx) s
    have hsat := upsert_intent_saturates iname phrases (some iidx) s
      (by simpa using hidx)
    have hmono : ∀ n ∈ (intentNamesIdx s.remote).map Prod.fst,
        n ∈ (intentNamesIdx (upsert_intent iname phrases (some iidx) s).2.1.remote).map
          Prod.fst := by
      intro n hn
      rcases hint with h | h
      · rw [show intentNamesIdx (upsert_intent iname phrases (some iidx) s).2.1.remote =
          intentNamesIdx s.remote by unfold intentNamesIdx; rw [h]]
        exact hn
      · rw [show intentNamesIdx (upsert_intent iname phrases (some iidx) s).2.1.remote =
          intentNamesIdx s.remote ++ [(iname, s.remote.fresh)] by
            unfold intentNamesIdx; rw [h]; simp]
        rw [List.map_append]
        exact List.mem_append_left _ hn
    have hinv : ∀ n ∈ (assocSet iidx iname
        (upsert_intent iname phrases (some iidx) s).1).map Prod.fst,
        n ∈ (intentNamesIdx (upsert_intent iname phrases (some iidx) s).2.1.remote).map
          Prod.fst := by
      intro n hn
      rcases (keys_assocSet _ _ _ _).mp hn with h | rfl
      · exact hmono n (hidx n h)
      · exact hsat
    obtain ⟨r1, r2, r3, r4, r5, r6⟩ := ih
      (assocSet im iname (upsert_intent iname phrases (some iidx) s).1)
      (assocSet iidx iname (upsert_intent iname phrases (some iidx) s).1)
      (upsert_intent iname phrases (some iidx) s).2.1
      (tr ++ (upsert_intent iname phrases (some iidx) s).2.2)
      hinv
    simp only [intentsLoop]
    refine ⟨?_, ?_, ?_, ?_, ?_, ?_⟩
    · intro n hn
      simp only [List.map_cons, List.mem_cons] at hn
      rcases hn with rfl | hr
      · exact r2 n hsat
      · exact r1 n hr
    · intro n hn
      exact r2 n (hmono n hn)
    · rw [r3, fc]
    · rw [r4, ff]
    · rw [r5, fw]
    · rw [r6, fp]

/-! ### Idempotence of `upload_single_flow` -/

/-- After one upload the state "knows" everything the same upload would need:
the flow id is cached, every graph page/intent display name is present
remotely, and the dispatcher key is cached when the graph needs webhooks. -/
def Saturated (cfg : UploaderCfg) (flowName : String) (g : Graph) (s : S) : Prop :=
  ∃ fid, lookupA s.cache.flows flowName = some fid ∧
    (∀ n ∈ g.pages.map Prod.fst, n ∈ (pagesNamesIdx s.remote fid).map Prod.fst) ∧
    (∀ n ∈ g.intents.map Prod.fst, n ∈ (intentNamesIdx s.remote).map Prod.fst) ∧
    (hasWebhooksOf g = true →
      (lookupA s.cache.webhooks ("Dispatcher" ++ "::" ++ cfg.dispatcher_url)).isSome)

lemma upload_single_flow_state (cfg : UploaderCfg) (flowName : String) (g : Graph)
    (s : S) :
    (upload_single_flow cfg flowName g s).2.1 =
      (intentsLoop g.intents []
        (intentNamesIdx (uploadDispatcher cfg g (upsert_flow flowName s).2.1).2.1.remote)
        (pagesLoop (upsert_flow flowName s).1 g.end_pages g.pages []
          (pagesNamesIdx
            (uploadDispatcher cfg g (upsert_flow flowName s).2.1).2.1.remote
            (upsert_flow flowName s).1)
          (uploadDispatcher cfg g (upsert_flow flowName s).2.1).2.1 []).2.2.1
        []).2.2.1 := rfl

lemma pagesNamesIdx_congr_pages {r1 r2 : Remote} (h : r1.pages = r2.pages)
    (fid : Nat) : pagesNamesIdx r1 fid = pagesNamesIdx r2 fid := by
  unfold pagesNamesIdx
  rw [h]

lemma intentNamesIdx_congr {r1 r2 : Remote} (h : r1.intents = r2.intents) :
    intentNamesIdx r1 = intentNamesIdx r2 := by
  unfold intentNamesIdx
  rw [h]

lemma uploadDispatcher_frame (cfg : UploaderCfg) (g : Graph) (s : S) :
    (uploadDispatcher cfg g s).2.1.cache.flows = s.cache.flows ∧
    (uploadDispatcher cfg g s).2.1.remote.flows = s.remote.flows ∧
    (uploadDispatcher cfg g s).2.1.remote.intents = s.remote.intents ∧
    (uploadDispatcher cfg g s).2.1.remote.pages = s.remote.pages ∧
    (hasWebhooksOf g = true →
      (lookupA (uploadDispatcher cfg g s).2.1.cache.webhooks
        ("Dispatcher" ++ "::" ++ cfg.dispatcher_url)).isSome) := by
  unfold uploadDispatcher
  by_cases hw : hasWebhooksOf g
  · rw [if_pos hw]
    obtain ⟨b1, b2, b3, b4, b5⟩ :=
      upsert_webhook_frame "Dispatcher" cfg.dispatcher_url (headersMapOf cfg) s
    exact ⟨b2, b3, b4, b5, fun _ => by rw [b1]; rfl⟩
  · rw [if_neg hw]
    exact ⟨rfl, rfl, rfl, rfl, fun h => absurd h hw⟩

lemma uploadDispatcher_cached (cfg : UploaderCfg) (g : Graph) (s : S)
    (h : hasWebhooksOf g = true →
      (lookupA s.cache.webhooks ("Dispatcher" ++ "::" ++ cfg.dispatcher_url)).isSome) :
    (uploadDispatcher cfg g s).2.1 = s := by
  unfold uploadDispatcher
  by_cases hw : hasWebhooksOf g
  · rw [if_pos hw]
    obtain ⟨wid, hwid⟩ := Option.isSome_iff_exists.mp (h hw)
    rw [upsert_webhook_cache_hit hwid]
  · rw [if_neg hw]

/-- One upload saturates the state for its own graph. -/
lemma upload_establishes (cfg : UploaderCfg) (flowName : String) (g : Graph) (s : S) :
    Saturated cfg flowName g (upload_single_flow cfg flowName g s).2.1 := by
  obtain ⟨a1, a2, a3, a4, a5⟩ := upsert_flow_frame flowName s
  obtain ⟨d1, d2, d3, d4, d5⟩ := uploadDispatcher_frame cfg g (upsert_flow flowName s).2.1
  obtain ⟨p1, p2, p3, p4, p5, p6⟩ := pagesLoop_run1 (upsert_flow flowName s).1
    g.end_pages g.pages []
    (pagesNamesIdx (uploadDispatcher cfg g (upsert_flow flowName s).2.1).2.1.remote
      (upsert_flow flowName s).1)
    (uploadDispatcher cfg g (upsert_flow flowName s).2.1).2.1 []
    (fun n hn => hn)
  obtain ⟨i1, i2, i3, i4, i5, i6⟩ := intentsLoop_run1 g.intents []
    (intentNamesIdx (uploadDispatcher cfg g (upsert_flow flowName s).2.1).2.1.remote)
    (pagesLoop (upsert_flow flowName s).1 g.end_pages g.pages []
      (pagesNamesIdx (uploadDispatcher cfg g (upsert_flow flowName s).2.1).2.1.remote
        (upsert_flow flowName s).1)
      (uploadDispatcher cfg g (upsert_flow flowName s).2.1).2.1 []).2.2.1 []
    (fun n hn => by
      rw [intentNamesIdx_congr p6]
      exact hn)
  rw [upload_single_flow_state]
  refine ⟨(upsert_flow flowName s).1, ?_, ?_, ?_, ?_⟩
  · rw [i3, p3, d1, a1]
  · intro n hn
    have hp := p1 n hn
    rw [pagesNamesIdx_congr_pages i6]
    exact hp
  · intro n hn
    exact i1 n hn
  · intro hw
    rw [i3, p3]
    exact d5 hw

/-- A saturated state is a fixed point of the upload's state transformation. -/
lemma upload_stable (cfg : UploaderCfg) (flowName : String) (g : Graph) (s : S)
    (hsat : Saturated cfg flowName g s) :
    (upload_single_flow cfg flowName g s).2.1 = s := by
  obtain ⟨fid, hflowc, hpages, hintents, hweb⟩ := hsat
  have hflow : upsert_flow flowName s = (fid, s, []) := upsert_flow_cache_hit hflowc
  have hdisp : (uploadDispatcher cfg g s).2.1 = s := uploadDispatcher_cached cfg g s hweb
  rw [upload_single_flow_state, hflow]
  simp only
  rw [hdisp]
  have hploop : (pagesLoop fid g.end_pages g.pages [] (pagesNamesIdx s.remote fid)
      s []).2.2.1 = s :=
    pagesLoop_stable fid g.end_pages g.pages [] (pagesNamesIdx s.remote fid) s []
      (fun n hn => hn) hpages
  rw [hploop]
  exact intentsLoop_stable g.intents [] (intentNamesIdx s.remote) s []
    (fun n hn => hn) hintents

/-- C1: uploading the same graph twice creates no duplicate remote resources —
the second upload leaves the entire state untouched, so for every resource
category (flows, webhooks, intents, pages) the remote display names after the
second upload equal those after the first. -/
theorem upload_single_flow_idempotent (cfg : UploaderCfg) (flowName : String)
    (g : Graph) (s : S) :
    (upload_single_flow cfg flowName g
        (upload_single_flow cfg flowName g s).2.1).2.1 =
      (upload_single_flow cfg flowName g s).2.1 ∧
    (upload_single_flow cfg flowName g
        (upload_single_flow cfg flowName g s).2.1).2.1.remote.flows.map Prod.snd =
      (upload_single_flow cfg flowName g s).2.1.remote.flows.map Prod.snd ∧
    (upload_single_flow cfg flowName g
        (upload_single_flow cfg flowName g s).2.1).2.1.remote.webhooks.map
          WebhookRes.displayName =
      (upload_single_flow cfg flowName g s).2.1.remote.webhooks.map
        WebhookRes.displayName ∧
    (upload_single_flow cfg flowName g
        (upload_single_flow cfg flowName g s).2.1).2.1.remote.intents.map Prod.snd =
      (upload_single_flow cfg flowName g s).2.1.remote.intents.map Prod.snd ∧
    (upload_single_flow cfg flowName g
        (upload_single_flow cfg flowName g s).2.1).2.1.remote.pages.map
          PageRes.displayName =
      (upload_single_flow cfg flowName g s).2.1.remote.pages.map
        PageRes.displayName := by
  have h := upload_stable cfg flowName g (upload_single_flow cfg flowName g s).2.1
    (upload_establishes cfg flowName g s)
  exact ⟨h, by rw [h], by rw [h], by rw [h], by rw [h]⟩

/-! ### C10: `is_end_state` has no effect on `upsert_page` -/

/-- C10: the `is_end_state` parameter of `upsert_page` has no effect on its
behaviour — for all flow identifiers, display names, prompts, chips, page
indexes and states, the payload built, the requests issued, the state reached
and the identifier returned are identical for `true` and `false`. -/
theorem upsert_page_end_state_irrelevant (flowId : Nat) (displayName : String)
    (prompts chips : List String) (pagesIndex : Option (List (String × Nat)))
    (s : S) :
    upsert_page flowId displayName prompts chips pagesIndex true s =
      upsert_page flowId displayName prompts chips pagesIndex false s := rfl

/-! ### C8: webhook upsert trusts an existing remote webhook -/

/-- C8: when `upsert_webhook` is called with a display name for which a remote
webhook already exists (and the `name::uri` key is not yet cached), it issues
only the GET listing — no create and no update — so the existing webhook's URI
and headers stay untouched; the existing identifier is returned and cached
under the name-plus-target-URI key. -/
theorem upsert_webhook_existing (displayName uri : String)
    (headersMap : Option (List (String × String))) (s : S) (w : WebhookRes)
    (hc : lookupA s.cache.webhooks (displayName ++ "::" ++ uri) = none)
    (hw : webhookLookup s.remote.webhooks displayName = some w) :
    upsert_webhook displayName uri headersMap s =
      (w.id,
       ⟨s.remote,
        ⟨s.cache.flows,
         assocSet s.cache.webhooks (displayName ++ "::" ++ uri) w.id⟩⟩,
       [ApiCall.listWebhooks]) := by
  simp only [upsert_webhook, hc, hw]

def c8State : S :=
  ⟨⟨[], [⟨5, "Dispatcher", "https://old.example", none⟩], [], [], 10⟩, ⟨[], []⟩⟩

theorem upsert_webhook_existing_witness :
    lookupA c8State.cache.webhooks ("Dispatcher" ++ "::" ++ "https://new.example") =
      none ∧
    webhookLookup c8State.remote.webhooks "Dispatcher" =
      some ⟨5, "Dispatcher", "https://old.example", none⟩ ∧
    upsert_webhook "Dispatcher" "https://new.example" none c8State =
      (5,
       ⟨c8State.remote,
        ⟨[], assocSet [] ("Dispatcher" ++ "::" ++ "https://new.example") 5⟩⟩,
       [ApiCall.listWebhooks]) :=
  ⟨rfl, rfl,
   upsert_webhook_existing "Dispatcher" "https://new.example" none c8State
     ⟨5, "Dispatcher", "https://old.example", none⟩ rfl rfl⟩

/-! ### C7: the retry/backoff loop `_api_request` (lines 67-102)

An abstract server maps (attempt index, auth generation) to an outcome: an HTTP
response or a transport-level `requests` exception.  The loop is modeled
attempt by attempt with an event trace (sleeps, request sends, auth refreshes);
`fuel` counts the remaining loop iterations, so `fuel + attempt = max_retries`. -/

structure HttpResponse where
  status : Nat
  retryAfter : Option Nat
deriving DecidableEq

inductive ReqOutcome
  | resp (r : HttpResponse)
  | transportErr
deriving DecidableEq

inductive ApiEvent
  | sleepFor (secs : Nat)
  | attemptCall
  | refreshAuth
deriving DecidableEq

inductive ApiErr
  | httpError (r : HttpResponse)
  | transportFailure
deriving DecidableEq

inductive ApiOutcome
  | success (r : HttpResponse)
  | raised (e : ApiErr)
deriving DecidableEq

def max_retries : Nat := 3

def api_request_go (server : Nat → Nat → ReqOutcome) :
    Nat → Nat → Nat → Option HttpResponse → List ApiEvent →
      List ApiEvent × ApiOutcome
  | 0, _, _, last, ev =>
    -- `for` loop exhausted: Python line 102 returns the last response object
    -- (reachable only after a 429 on the final attempt).
    match last with
    | some r => (ev, .success r)
    | none => (ev, .raised .transportFailure)
  | fuel + 1, attempt, authGen, last, ev =>
    let ev := ev ++ (if attempt > 0 then [ApiEvent.sleepFor (2 ^ attempt)] else []) ++
      [ApiEvent.attemptCall]
    match server attempt authGen with
    | .transportErr =>
      if attempt = max_retries - 1 then (ev, .raised .transportFailure)
      else api_request_go server fuel (attempt + 1) authGen last ev
    | .resp r =>
      if r.status = 401 ∧ attempt < max_retries - 1 then
        api_request_go server fuel (attempt + 1) (authGen + 1) (some r)
          (ev ++ [ApiEvent.refreshAuth])
      else if r.status = 429 then
        api_request_go server fuel (attempt + 1) authGen (some r)
          (ev ++ [ApiEvent.sleepFor (r.retryAfter.getD 5)])
      else if 400 ≤ r.status then
        -- a 400 response body is logged (line 91-92), then raise_for_status
        if attempt = max_retries - 1 then (ev, .raised (.httpError r))
        else api_request_go server fuel (attempt + 1) authGen (some r) ev
      else (ev, .success r)

/-- `_api_request`. -/
def api_request (server : Nat → Nat → ReqOutcome) : List ApiEvent × ApiOutcome :=
  api_request_go server max_retries 0 0 none []

def countAttempts (ev : List ApiEvent) : Nat :=
  (ev.filter (fun e => decide (e = ApiEvent.attemptCall))).length

lemma api_request_go_extends (server : Nat → Nat → ReqOutcome) :
    ∀ (fuel attempt authGen : Nat) (last : Option HttpResponse) (ev : List ApiEvent),
      ∃ tail, (api_request_go server fuel attempt authGen last ev).1 = ev ++ tail := by
  intro fuel
  induction fuel with
  | zero =>
    intro attempt authGen last ev
    cases last with
    | some r => exact ⟨[], by simp [api_request_go]⟩
    | none => exact ⟨[], by simp [api_request_go]⟩
  | succ n ih =>
    intro attempt authGen last ev
    cases hs : server attempt authGen with
    | transportErr =>
      by_cases ha : attempt = max_retries - 1
      · refine ⟨(if attempt > 0 then [ApiEvent.sleepFor (2 ^ attempt)] else []) ++
          [ApiEvent.attemptCall], ?_⟩
        simp only [api_request_go, hs, if_pos ha]
        simp
      · obtain ⟨t, ht⟩ := ih (attempt + 1) authGen last
          (ev ++ (if attempt > 0 then [ApiEvent.sleepFor (2 ^ attempt)] else []) ++
            [ApiEvent.attemptCall])
        refine ⟨(if attempt > 0 then [ApiEvent.sleepFor (2 ^ attempt)] else []) ++
          [ApiEvent.attemptCall] ++ t, ?_⟩
        simp only [api_request_go, hs, if_neg ha]
        rw [ht]
        simp
    | resp r =>
      by_cases h1 : r.status = 401 ∧ attempt < max_retries - 1
      · obtain ⟨t, ht⟩ := ih (attempt + 1) (authGen + 1) (some r)
          (ev ++ (if attempt > 0 then [ApiEvent.sleepFor (2 ^ attempt)] else []) ++
            [ApiEvent.attemptCall] ++ [ApiEvent.refreshAuth])
        refine ⟨(if attempt > 0 then [ApiEvent.sleepFor (2 ^ attempt)] else []) ++
          [ApiEvent.attemptCall] ++ [ApiEvent.refreshAuth] ++ t, ?_⟩
        simp only [api_request_go, hs, if_pos h1]
        rw [ht]
        simp
      · by_cases h2 : r.status = 429
        · obtain ⟨t, ht⟩ := ih (attempt + 1) authGen (some r)
            (ev ++ (if attempt > 0 then [ApiEvent.sleepFor (2 ^ attempt)] else []) ++
              [ApiEvent.attemptCall] ++ [ApiEvent.sleepFor (r.retryAfter.getD 5)])
          refine ⟨(if attempt > 0 then [ApiEvent.sleepFor (2 ^ attempt)] else []) ++
            [ApiEvent.attemptCall] ++ [ApiEvent.sleepFor (r.retryAfter.getD 5)] ++ t, ?_⟩
          simp only [api_request_go, hs, if_neg h1, if_pos h2]
          rw [ht]
          simp
        · by_cases h3 : 400 ≤ r.status
          · by_cases ha : attempt = max_retries - 1
            · refine ⟨(if attempt > 0 then [ApiEvent.sleepFor (2 ^ attempt)] else []) ++
                [ApiEvent.attemptCall], ?_⟩
              simp only [api_request_go, hs, if_neg h1, if_neg h2, if_pos h3, if_pos ha]
              simp
            · obtain ⟨t, ht⟩ := ih (attempt + 1) authGen (some r)
                (ev ++ (if attempt > 0 then [ApiEvent.sleepFor (2 ^ attempt)] else []) ++
                  [ApiEvent.attemptCall])
              refine ⟨(if attempt > 0 then [ApiEvent.sleepFor (2 ^ attempt)] else []) ++
                [ApiEvent.attemptCall] ++ t, ?_⟩
              simp only [api_request_go, hs, if_neg h1, if_neg h2, if_pos h3, if_neg ha]
              rw [ht]
              simp
          · refine ⟨(if attempt > 0 then [ApiEvent.sleepFor (2 ^ attempt)] else []) ++
              [ApiEvent.attemptCall], ?_⟩
            simp only [api_request_go, hs, if_neg h1, if_neg h2, if_neg h3]
            simp

lemma countAttempts_append (a b : List ApiEvent) :
    countAttempts (a ++ b) = countAttempts a + countAttempts b := by
  simp [countAttempts, List.filter_append]

lemma countAttempts_refresh : countAttempts [ApiEvent.refreshAuth] = 0 := rfl

lemma countAttempts_sleep (m : Nat) : countAttempts [ApiEvent.sleepFor m] = 0 := rfl

lemma countAttempts_stepBlock (ev : List ApiEvent) (attempt : Nat) :
    countAttempts ((ev ++ (if attempt > 0 then [ApiEvent.sleepFor (2 ^ attempt)]
      else [])) ++ [ApiEvent.attemptCall]) = countAttempts ev + 1 := by
  rw [countAttempts_append, countAttempts_append]
  by_cases h : attempt > 0 <;> simp [h, countAttempts]

lemma api_request_go_attempts (server : Nat → Nat → ReqOutcome) :
    ∀ (fuel attempt authGen : Nat) (last : Option HttpResponse) (ev : List ApiEvent),
      countAttempts (api_request_go server fuel attempt authGen last ev).1 ≤
        countAttempts ev + fuel := by
  intro fuel
  induction fuel with
  | zero =>
    intro attempt authGen last ev
    cases last with
    | some r => simp [api_request_go]
    | none => simp [api_request_go]
  | succ n ih =>
    intro attempt authGen last ev
    cases hs : server attempt authGen with
    | transportErr =>
      by_cases ha : attempt = max_retries - 1
      · simp only [api_request_go, hs, if_pos ha]
        rw [countAttempts_stepBlock]
        omega
      · simp only [api_request_go, hs, if_neg ha]
        have := ih (attempt + 1) authGen last
          ((ev ++ (if attempt > 0 then [ApiEvent.sleepFor (2 ^ attempt)] else [])) ++
            [ApiEvent.attemptCall])
        rw [countAttempts_stepBlock] at this
        omega
    | resp r =>
      by_cases h1 : r.status = 401 ∧ attempt < max_retries - 1
      · simp only [api_request_go, hs, if_pos h1]
        have := ih (attempt + 1) (authGen + 1) (some r)
          ((ev ++ (if attempt > 0 then [ApiEvent.sleepFor (2 ^ attempt)] else [])) ++
            [ApiEvent.attemptCall] ++ [ApiEvent.refreshAuth])
        rw [countAttempts_append, countAttempts_stepBlock, countAttempts_refresh] at this
        omega
      · by_cases h2 : r.status = 429
        · simp only [api_request_go, hs, if_neg h1, if_pos h2]
          have := ih (attempt + 1) authGen (some r)
            ((ev ++ (if attempt > 0 then [ApiEvent.sleepFor (2 ^ attempt)] else [])) ++
              [ApiEvent.attemptCall] ++ [ApiEvent.sleepFor (r.retryAfter.getD 5)])
          rw [countAttempts_append, countAttempts_stepBlock, countAttempts_sleep] at this
          omega
        · by_cases h3 : 400 ≤ r.status
          · by_cases ha : attempt = max_retries - 1
            · simp only [api_request_go, hs, if_neg h1, if_neg h2, if_pos h3, if_pos ha]
              rw [countAttempts_stepBlock]
              omega
            · simp only [api_request_go, hs, if_neg h1, if_neg h2, if_pos h3, if_neg ha]
              have := ih (attempt + 1) authGen (some r)
                ((ev ++ (if attempt > 0 then [ApiEvent.sleepFor (2 ^ attempt)] else [])) ++
                  [ApiEvent.attemptCall])
              rw [countAttempts_stepBlock] at this
              omega
          · simp only [api_request_go, hs, if_neg h1, if_neg h2, if_neg h3]
            rw [countAttempts_stepBlock]
            omega

lemma api_request_go_401 (server : Nat → Nat → ReqOutcome) {r : HttpResponse}
    (n attempt authGen : Nat) (last : Option HttpResponse) (ev : List ApiEvent)
    (hs : server attempt authGen = ReqOutcome.resp r) (h401 : r.status = 401)
    (hlt : attempt < max_retries - 1) :
    api_request_go server (n + 1) attempt authGen last ev =
      api_request_go server n (attempt + 1) (authGen + 1) (some r)
        ((ev ++ (if attempt > 0 then [ApiEvent.sleepFor (2 ^ attempt)] else [])) ++
          [ApiEvent.attemptCall] ++ [ApiEvent.refreshAuth]) := by
  simp only [api_request_go, hs, if_pos (And.intro h401 hlt)]

lemma api_request_go_429 (server : Nat → Nat → ReqOutcome) {r : HttpResponse}
    (n attempt authGen : Nat) (last : Option HttpResponse) (ev : List ApiEvent)
    (hs : server attempt authGen = ReqOutcome.resp r) (h429 : r.status = 429)
    (hn401 : ¬(r.status = 401 ∧ attempt < max_retries - 1)) :
    api_request_go server (n + 1) attempt authGen last ev =
      api_request_go server n (attempt + 1) authGen (some r)
        ((ev ++ (if attempt > 0 then [ApiEvent.sleepFor (2 ^ attempt)] else [])) ++
          [ApiEvent.attemptCall] ++ [ApiEvent.sleepFor (r.retryAfter.getD 5)]) := by
  simp only [api_request_go, hs, if_neg hn401, if_pos h429]

/-- Whatever the server does, an iteration at a positive attempt index first
sleeps `2 ^ attempt` and then sends the request. -/
lemma api_request_go_step_events (server : Nat → Nat → ReqOutcome)
    (n attempt authGen : Nat) (last : Option HttpResponse) (ev : List ApiEvent)
    (h : 0 < attempt) :
    ∃ tail, (api_request_go server (n + 1) attempt authGen last ev).1 =
      ev ++ [ApiEvent.sleepFor (2 ^ attempt), ApiEvent.attemptCall] ++ tail := by
  have hif : (if attempt > 0 then [ApiEvent.sleepFor (2 ^ attempt)] else []) =
      [ApiEvent.sleepFor (2 ^ attempt)] := by simp [h]
  cases hs : server attempt authGen with
  | transportErr =>
    by_cases ha : attempt = max_retries - 1
    · refine ⟨[], ?_⟩
      simp only [api_request_go, hs, if_pos ha, hif]
      simp
    · obtain ⟨t, ht⟩ := api_request_go_extends server n (attempt + 1) authGen last
        ((ev ++ (if attempt > 0 then [ApiEvent.sleepFor (2 ^ attempt)] else [])) ++
          [ApiEvent.attemptCall])
      refine ⟨t, ?_⟩
      simp only [api_request_go, hs, if_neg ha]
      rw [ht, hif]
      simp
  | resp r =>
    by_cases h1 : r.status = 401 ∧ attempt < max_retries - 1
    · obtain ⟨t, ht⟩ := api_request_go_extends server n (attempt + 1) (authGen + 1)
        (some r)
        ((ev ++ (if attempt > 0 then [ApiEvent.sleepFor (2 ^ attempt)] else [])) ++
          [ApiEvent.attemptCall] ++ [ApiEvent.refreshAuth])
      refine ⟨ApiEvent.refreshAuth :: t, ?_⟩
      simp only [api_request_go, hs, if_pos h1]
      rw [ht, hif]
      simp
    · by_cases h2 : r.status = 429
      · obtain ⟨t, ht⟩ := api_request_go_extends server n (attempt + 1) authGen (some r)
          ((ev ++ (if attempt > 0 then [ApiEvent.sleepFor (2 ^ attempt)] else [])) ++
            [ApiEvent.attemptCall] ++ [ApiEvent.sleepFor (r.retryAfter.getD 5)])
        refine ⟨ApiEvent.sleepFor (r.retryAfter.getD 5) :: t, ?_⟩
        simp only [api_request_go, hs, if_neg h1, if_pos h2]
        rw [ht, hif]
        simp
      · by_cases h3 : 400 ≤ r.status
        · by_cases ha : attempt = max_retries - 1
          · refine ⟨[], ?_⟩
            simp only [api_request_go, hs, if_neg h1, if_neg h2, if_pos h3, if_pos ha,
              hif]
            simp
          · obtain ⟨t, ht⟩ := api_request_go_extends server n (attempt + 1) authGen
              (some r)
              ((ev ++ (if attempt > 0 then [ApiEvent.sleepFor (2 ^ attempt)] else [])) ++
                [ApiEvent.attemptCall])
            refine ⟨t, ?_⟩
            simp only [api_request_go, hs, if_neg h1, if_neg h2, if_pos h3, if_neg ha]
            rw [ht, hif]
            simp
        · refine ⟨[], ?_⟩
          simp only [api_request_go, hs, if_neg h1, if_neg h2, if_neg h3, hif]
          simp

/-- C7: `_api_request` makes at most 3 attempts per call; on a 401 it refreshes
the bearer credential and retries (consuming an attempt); on a 429 it sleeps for
the server-specified interval (default 5 seconds) and retries; it sleeps
`2 ^ attempt` seconds between attempts; and against a server that always fails
at the transport level it performs exactly 3 attempts (with backoff sleeps of 2
and 4 seconds) and then the last exception propagates. -/
theorem api_request_spec (server : Nat → Nat → ReqOutcome) :
    countAttempts (api_request server).1 ≤ 3 ∧
    ((∀ a g, server a g = ReqOutcome.transportErr) →
      (api_request server).1 =
        [ApiEvent.attemptCall, ApiEvent.sleepFor 2, ApiEvent.attemptCall,
         ApiEvent.sleepFor 4, ApiEvent.attemptCall] ∧
      countAttempts (api_request server).1 = 3 ∧
      (api_request server).2 = ApiOutcome.raised ApiErr.transportFailure) ∧
    (∀ r : HttpResponse, server 0 0 = ReqOutcome.resp r → r.status = 401 →
      (api_request server).1.take 3 =
        [ApiEvent.attemptCall, ApiEvent.refreshAuth, ApiEvent.sleepFor 2] ∧
      2 ≤ countAttempts (api_request server).1) ∧
    (∀ r : HttpResponse, server 0 0 = ReqOutcome.resp r → r.status = 429 →
      (api_request server).1.take 3 =
        [ApiEvent.attemptCall, ApiEvent.sleepFor (r.retryAfter.getD 5),
         ApiEvent.sleepFor 2] ∧
      2 ≤ countAttempts (api_request server).1) := by
  have hdef : api_request server = api_request_go server (2 + 1) 0 0 none [] := rfl
  refine ⟨?_, ?_, ?_, ?_⟩
  · have h := api_request_go_attempts server 3 0 0 none []
    have h0 : countAttempts ([] : List ApiEvent) = 0 := rfl
    rw [h0] at h
    simpa [api_request, max_retries] using h
  · intro h
    have e0 := h 0 0
    have e1 := h 1 0
    have e2 := h 2 0
    have hfull : api_request server =
        ([ApiEvent.attemptCall, ApiEvent.sleepFor 2, ApiEvent.attemptCall,
          ApiEvent.sleepFor 4, ApiEvent.attemptCall],
         ApiOutcome.raised ApiErr.transportFailure) := by
      rw [hdef]
      simp [api_request_go, e0, e1, e2, max_retries]
    rw [hfull]
    exact ⟨rfl, rfl, rfl⟩
  · intro r hs h401
    have hstep := api_request_go_401 server 2 0 0 none [] hs h401 (by decide)
    have hev : (([] ++ (if (0 : Nat) > 0 then [ApiEvent.sleepFor (2 ^ 0)] else [])) ++
        [ApiEvent.attemptCall] ++ [ApiEvent.refreshAuth]) =
        [ApiEvent.attemptCall, ApiEvent.refreshAuth] := by simp
    rw [hev] at hstep
    obtain ⟨tail, htail⟩ := api_request_go_step_events server 1 1 1 (some r)
      [ApiEvent.attemptCall, ApiEvent.refreshAuth] (by decide)
    have hevents : (api_request server).1 =
        [ApiEvent.attemptCall, ApiEvent.refreshAuth] ++
          [ApiEvent.sleepFor 2, ApiEvent.attemptCall] ++ tail := by
      rw [hdef, hstep]
      exact htail
    constructor
    · rw [hevents]; simp
    · rw [hevents, countAttempts_append, countAttempts_append]
      have c1 : countAttempts [ApiEvent.attemptCall, ApiEvent.refreshAuth] = 1 := rfl
      have c2 : countAttempts [ApiEvent.sleepFor 2, ApiEvent.attemptCall] = 1 := rfl
      rw [c1, c2]
      omega
  · intro r hs h429
    have hn401 : ¬(r.status = 401 ∧ (0 : Nat) < max_retries - 1) := by
      rintro ⟨hc, -⟩
      rw [h429] at hc
      exact absurd hc (by decide)
    have hstep := api_request_go_429 server 2 0 0 none [] hs h429 hn401
    have hev : (([] ++ (if (0 : Nat) > 0 then [ApiEvent.sleepFor (2 ^ 0)] else [])) ++
        [ApiEvent.attemptCall] ++ [ApiEvent.sleepFor (r.retryAfter.getD 5)]) =
        [ApiEvent.attemptCall, ApiEvent.sleepFor (r.retryAfter.getD 5)] := by simp
    rw [hev] at hstep
    obtain ⟨tail, htail⟩ := api_request_go_step_events server 1 1 0 (some r)
      [ApiEvent.attemptCall, ApiEvent.sleepFor (r.retryAfter.getD 5)] (by decide)
    have hevents : (api_request server).1 =
        [ApiEvent.attemptCall, ApiEvent.sleepFor (r.retryAfter.getD 5)] ++
          [ApiEvent.sleepFor 2, ApiEvent.attemptCall] ++ tail := by
      rw [hdef, hstep]
      exact htail
    constructor
    · rw [hevents]; simp
    · rw [hevents, countAttempts_append, countAttempts_append]
      have c1 : countAttempts
        [ApiEvent.attemptCall, ApiEvent.sleepFor (r.retryAfter.getD 5)] = 1 := rfl
      have c2 : countAttempts [ApiEvent.sleepFor 2, ApiEvent.attemptCall] = 1 := rfl
      rw [c1, c2]
      omega

theorem api_request_spec_witness :
    (∀ a g : Nat, (fun _ _ : Nat => ReqOutcome.transportErr) a g =
      ReqOutcome.transportErr) ∧
    (api_request (fun _ _ => ReqOutcome.transportErr)).1 =
      [ApiEvent.attemptCall, ApiEvent.sleepFor 2, ApiEvent.attemptCall,
       ApiEvent.sleepFor 4, ApiEvent.attemptCall] ∧
    countAttempts (api_request (fun _ _ => ReqOutcome.transportErr)).1 = 3 ∧
    (api_request (fun _ _ => ReqOutcome.transportErr)).2 =
      ApiOutcome.raised ApiErr.transportFailure :=
  ⟨fun _ _ => rfl,
   (api_request_spec (fun _ _ => ReqOutcome.transportErr)).2.1 (fun _ _ => rfl)⟩

end DFX
